import Mathlib

/-!
# gcnasm: the line parser of `src/parser.c`

A shallow embedding of the single-line pipeline of the AMD GCN assembler
front end: tokenisation (`strsep`, `getField`), operand classification
(`parseOperand`), the SOP2 encoder (`parseSOP2`, `setLiteralOperand`) and
the per-line driver (`parseLine`).

Conventions of the embedding.

* A C string is a `List Char` (the bytes before the terminating NUL); a
  `char *` that may be `NULL` is an `Option (List Char)`.
* `parser.h` and the table sources are not part of the sources at hand.
  Everything they declare (the instruction table, the simple-operand table,
  the operand descriptors `SGPR_OP` ... `LITERAL_OP`, the enum constants
  `SOP2`, `LITERAL` and `SDST_OPERAND_TRESHOLD`) is a field of `Tables`, and
  every function of the parser takes the tables as its first argument.
* Words are 32 bits wide (`%08x`): every value stored in a word is reduced
  modulo `2 ^ 32`.  `long` is 64 bits wide (LP64); the field `value` of an
  operand receives the result of `strtol` unchanged.
* `error(msg)` ends the run; it is the `Failure.error msg` outcome.  Passing
  `NULL` to `strlen` is the `Failure.nullDeref` outcome.
-/

namespace Gcnasm

/-! ## Data model -/

/-- An operand descriptor: an entry of `isa_simple_operand_list`, or one of the
built-in descriptors `SGPR_OP`, `TTMP_OP`, `ZERO_OP`, `INL_POS_OP`,
`INL_NEG_OP`, `LITERAL_OP`.  `type` is the ordinal of the category enum. -/
structure isa_operand_type where
  name : List Char
  op_code : Nat
  type : Nat
deriving DecidableEq, Repr

/-- A parsed operand (`isa_operand`). -/
structure isa_operand where
  op_code : Nat
  value : Int
  op_type : isa_operand_type
deriving DecidableEq, Repr

/-- An entry of `isa_instr_list`. `encoding` is the ordinal of the encoding
enum. -/
structure isa_instr where
  name : List Char
  encoding : Nat
  op_code : Nat
deriving DecidableEq, Repr

/-- The opcode accumulator (`isa_op_code`). -/
structure isa_op_code where
  code : Nat
  literal : Nat
  literal_set : Bool
deriving DecidableEq, Repr

/-- The static data the parser reads, declared outside `parser.c`. -/
structure Tables where
  isa_instr_list : List isa_instr
  isa_simple_operand_list : List isa_operand_type
  SOP2 : Nat
  SGPR_OP : isa_operand_type
  TTMP_OP : isa_operand_type
  ZERO_OP : isa_operand_type
  INL_POS_OP : isa_operand_type
  INL_NEG_OP : isa_operand_type
  LITERAL_OP : isa_operand_type
  LITERAL : Nat
  SDST_OPERAND_TRESHOLD : Nat

/-- Modelled from the spec: the function `error` is declared outside `parser.c`; by
§7 and §9 it reports the message and ends the run. A call ends either by
returning or by one of these failures. -/
inductive Failure where
  /-- The call `error(msg)`. -/
  | error (msg : String)
  /-- The call `strlen(NULL)`. -/
  | nullDeref
  /-- The loop budget of the embedding ran out (never the case, see
  `getField_ne_outOfFuel`). -/
  | outOfFuel
deriving DecidableEq, Repr

/-- What a line writes to the standard output. -/
inductive Event where
  /-- The report `Unrecognized instruction '%s'`. -/
  | unrecognized (token : List Char)
  /-- The mnemonic label `%s \t`. -/
  | label (name : List Char)
  /-- The report `Unsupported encoding type for instruction '%s'`. -/
  | unsupported (name : List Char)
  /-- The packed word, `0x%08x`. -/
  | word (w : Nat)
  /-- The trailing literal, ` 0x%08x`. -/
  | literal (w : Nat)
deriving DecidableEq, Repr

/-- The trace of one call of `parseLine`: what was printed, and the failure
that ended it, if any. -/
structure Run where
  printed : List Event
  failure : Option Failure
deriving DecidableEq, Repr

/-! ## Machine arithmetic -/

/-- Reduction of a natural number to a 32-bit word. -/
def u32 (n : Nat) : Nat := n % 2 ^ 32

/-- Conversion of a signed integer to a 32-bit word (two's complement). -/
def toU32 (i : Int) : Nat := (i % 2 ^ 32).toNat

/-- The largest `long`. -/
def LONG_MAX : Int := 2 ^ 63 - 1

/-- The smallest `long`. -/
def LONG_MIN : Int := -(2 ^ 63)

/-! ## libc -/

/-- The function `isspace` of the C locale. -/
def isspace (c : Char) : Bool :=
  c.toNat = 32 || (9 ≤ c.toNat && c.toNat ≤ 13)

/-- The function `tolower` of the C locale. -/
def tolower (c : Char) : Char :=
  if 65 ≤ c.toNat ∧ c.toNat ≤ 90 then Char.ofNat (c.toNat + 32) else c

/-- The value of a character as a digit, in any base up to 36. -/
def digitVal (c : Char) : Option Nat :=
  if 48 ≤ c.toNat ∧ c.toNat ≤ 57 then some (c.toNat - 48)
  else if 97 ≤ c.toNat ∧ c.toNat ≤ 122 then some (c.toNat - 87)
  else if 65 ≤ c.toNat ∧ c.toNat ≤ 90 then some (c.toNat - 55)
  else none

/-- Whether a character is a digit of the base. -/
def isDigitIn (base : Nat) (c : Char) : Bool :=
  match digitVal c with
  | some d => decide (d < base)
  | none => false

/-- The longest run of digits of the base at the head of a string: its value on
top of `acc`, and what follows it. -/
def scanDigits (base : Nat) : List Char → Nat → Nat × List Char
  | [], acc => (acc, [])
  | c :: cs, acc =>
    if isDigitIn base c then scanDigits base cs (acc * base + (digitVal c).getD 0)
    else (acc, c :: cs)

/-- The sign of `strtol`: an optional `+` or `-`. -/
def takeSign (s : List Char) : Bool × List Char :=
  match s with
  | c :: r => if c = '-' then (true, r) else if c = '+' then (false, r) else (false, s)
  | [] => (false, s)

/-- The optional `0x` / `0X` of base 16, taken only when a hex digit follows. -/
def takeHexPrefix (base : Nat) (s : List Char) : List Char :=
  match s with
  | z :: x :: h :: r =>
    if base = 16 ∧ z = '0' ∧ (x = 'x' ∨ x = 'X') ∧ isDigitIn 16 h then h :: r else s
  | _ => s

/-- Saturation of `strtol` to the range of `long`. -/
def clampLong (i : Int) : Int :=
  if i > LONG_MAX then LONG_MAX else if i < LONG_MIN then LONG_MIN else i

/-- The function `strtol(nptr, &end, base)` for base 10 and 16: white space is
skipped, then an optional sign, then (base 16) an optional `0x`, then the
longest run of digits.  Returns the value, saturated to `long`, and the text
`end` points to; without any digit the value is 0 and `end` is `nptr`. -/
def strtol (nptr : List Char) (base : Nat) : Int × List Char :=
  let (neg, s) := takeSign (nptr.dropWhile isspace)
  let body := takeHexPrefix base s
  match body with
  | c :: _ =>
    if isDigitIn base c then
      let (n, rest) := scanDigits base body 0
      (clampLong (if neg then -(n : Int) else (n : Int)), rest)
    else (0, nptr)
  | [] => (0, nptr)

/-- The function `strsep(&stringp, delim)`: the token returned (`NULL` when
`*stringp` is `NULL`) and the new value of `*stringp`. -/
def strsep (stringp : Option (List Char)) (delim : List Char) :
    Option (List Char) × Option (List Char) :=
  match stringp with
  | none => (none, none)
  | some s =>
    (some (s.takeWhile (fun c => !delim.contains c)),
      match s.dropWhile (fun c => !delim.contains c) with
      | [] => none
      | _ :: rest => some rest)

/-! ## Tokenizer (`parser.c` lines 20-30) -/

/-- The field delimiters `", \t"`. -/
def field_delimiter : List Char := [',', ' ', '\t']

/-- The comment delimiter `";"`. -/
def comment_delimiter : List Char := [';']

/-- The loop `while (strlen(field = strsep(line, delimiter)) == 0);` with a
budget of iterations. -/
def getFieldLoop (delimiter : List Char) :
    Nat → Option (List Char) → Except Failure (List Char × Option (List Char))
  | 0, _ => .error .outOfFuel
  | n + 1, line =>
    match strsep line delimiter with
    | (none, _) => .error .nullDeref
    | (some field, line') =>
      if field.length = 0 then getFieldLoop delimiter n line' else .ok (field, line')

/-- The function `getField(&line, delimiter)`: the field and the new cursor. Every
iteration but the last consumes one character, so the length of the text
plus two bounds the number of iterations. -/
def getField (line : Option (List Char)) (delimiter : List Char) :
    Except Failure (List Char × Option (List Char)) :=
  getFieldLoop delimiter ((line.getD []).length + 2) line

/-! ## Operand classifier (`parser.c` lines 168-263) -/

/-- Lines 234-256 of `parseOperand`: the operand of a parsed number. -/
def classifyValue (T : Tables) (value : Int) : isa_operand :=
  if value = 0 then
    { op_code := T.ZERO_OP.op_code, value := value, op_type := T.ZERO_OP }
  else if value > 0 ∧ value ≤ 64 then
    { op_code := toU32 (T.INL_POS_OP.op_code + value - 1), value := value,
      op_type := T.INL_POS_OP }
  else if value ≥ -16 ∧ value ≤ -1 then
    { op_code := toU32 (T.INL_NEG_OP.op_code + (-value) - 1), value := value,
      op_type := T.INL_NEG_OP }
  else
    { op_code := T.LITERAL_OP.op_code, value := value, op_type := T.LITERAL_OP }

/-- Lines 175-178 of `parseOperand`: the first entry of the simple-operand table
whose name is a prefix of the text (`strncmp` over the length of the name). -/
def simpleMatch (T : Tables) (op_str : List Char) : Option isa_operand_type :=
  T.isa_simple_operand_list.find? (fun e => e.name.isPrefixOf op_str)

/-- The function `parseOperand(op_str)`. The field `value` of a simple operand is
left unset by the source; it is 0 here. -/
def parseOperand (T : Tables) (op_str : List Char) : Except Failure isa_operand :=
  match simpleMatch T op_str with
  | some e => .ok { op_code := e.op_code, value := 0, op_type := e }
  | none =>
    if tolower (op_str.headD (Char.ofNat 0)) = 's' then
      let (value, end_) := strtol op_str.tail 10
      if end_ ≠ [] then .error (.error "parsing operand (SGPR value)")
      else if value < 0 ∨ value > 103 then .error (.error "invalid SGPR number")
      else .ok { op_code := toU32 (T.SGPR_OP.op_code + value), value := value,
                 op_type := T.SGPR_OP }
    else if tolower (op_str.headD (Char.ofNat 0)) = 't' then
      let (value, end_) := strtol op_str.tail 10
      if end_ ≠ [] then .error (.error "parsing operand (TTMP value)")
      else if value < 0 ∨ value > 11 then .error (.error "invalid TTMP number")
      else .ok { op_code := toU32 (T.TTMP_OP.op_code + value), value := value,
                 op_type := T.TTMP_OP }
    else
      let (value, end_) :=
        if ['0', 'x'].isPrefixOf op_str then strtol (op_str.drop 2) 16
        else strtol op_str 10
      if end_ ≠ [] then .error (.error "parsing operand (literal value)")
      else .ok (classifyValue T value)

/-! ## Literal tracker (`parser.c` lines 265-272) -/

/-- The function `setLiteralOperand(&op_code, operand)`. -/
def setLiteralOperand (op_code : isa_op_code) (operand : isa_operand) :
    Except Failure isa_op_code :=
  if op_code.literal_set then .error (.error "at most one literal constant can be used")
  else .ok { op_code with literal_set := true, literal := toU32 operand.value }

/-! ## SOP2 encoder (`parser.c` lines 105-161) -/

/-- The trimming of `src0_str` (lines 118-120): one final newline is cut off. -/
def trimNewline (s : List Char) : List Char :=
  if s.getLast? = some '\n' then s.dropLast else s

/-- Lines 113-120 of `parseSOP2`: the three fields, the third one trimmed. The
three loops are the loop of `getField` on `field_delimiter`. -/
def sop2Fields (line : Option (List Char)) :
    Except Failure (List Char × List Char × List Char) := do
  let (dst_str, line) ← getField line field_delimiter
  let (src1_str, line) ← getField line field_delimiter
  let (src0_str, _) ← getField line field_delimiter
  pure (dst_str, src1_str, trimNewline src0_str)

/-- Lines 124-133 of `parseSOP2`: the accumulator after the destination. -/
def sop2Dst (T : Tables) (instr : isa_instr) (dst_str : List Char) :
    Except Failure isa_op_code :=
  let op_code : isa_op_code := { code := u32 instr.op_code, literal := 0, literal_set := false }
  match parseOperand T dst_str with
  | .error f => .error f
  | .ok dst_op =>
    if dst_op.op_type.type ≥ T.SDST_OPERAND_TRESHOLD then
      .error (.error "incorrect value for SDST operand")
    else .ok { op_code with code := op_code.code ||| u32 (dst_op.op_code <<< 16) }

/-- Lines 135-141 (`shift = 8`) and 143-149 (`shift = 0`) of `parseSOP2`: one
source operand merged into the accumulator. -/
def sop2Src (T : Tables) (shift : Nat) (op_code : isa_op_code) (src_str : List Char) :
    Except Failure isa_op_code :=
  match parseOperand T src_str with
  | .error f => .error f
  | .ok src_op =>
    let literal_step :=
      if src_op.op_type.type = T.LITERAL then setLiteralOperand op_code src_op
      else .ok op_code
    match literal_step with
    | .error f => .error f
    | .ok op_code => .ok { op_code with code := op_code.code ||| u32 (src_op.op_code <<< shift) }

/-- Lines 151-160 of `parseSOP2`: the output. -/
def sop2Print (op_code : isa_op_code) : List Event :=
  if op_code.literal_set then [.word op_code.code, .literal op_code.literal]
  else [.word op_code.code]

/-- The function `parseSOP2(instr, line)`: what it prints, or how it fails. -/
def parseSOP2 (T : Tables) (instr : isa_instr) (line : Option (List Char)) :
    Except Failure (List Event) := do
  let (dst_str, src1_str, src0_str) ← sop2Fields line
  let op_code ← sop2Dst T instr dst_str
  let op_code ← sop2Src T 8 op_code src1_str
  let op_code ← sop2Src T 0 op_code src0_str
  pure (sop2Print op_code)

/-! ## Per-line driver (`parser.c` lines 59-98) -/

/-- The function `parseLine(line)`. -/
def parseLine (T : Tables) (line : List Char) : Run :=
  match getField (some line) comment_delimiter with
  | .error f => ⟨[], some f⟩
  | .ok (line_strip, _) =>
    match getField (some line_strip) field_delimiter with
    | .error f => ⟨[], some f⟩
    | .ok (token, line_strip) =>
      match T.isa_instr_list.find? (fun e => e.name == token) with
      | none => ⟨[.unrecognized token], none⟩
      | some instr =>
        if instr.encoding = T.SOP2 then
          match parseSOP2 T instr line_strip with
          | .ok out => ⟨.label instr.name :: out, none⟩
          | .error f => ⟨[.label instr.name], some f⟩
        else ⟨[.label instr.name, .unsupported instr.name], none⟩

/-! ## Texts of numbers -/

/-- The decimal digit `d` as a character. -/
def digitChar (d : Nat) : Char := Char.ofNat (48 + d)

/-- The decimal digits of `n` in front of `acc`, with a budget of digits. -/
def natTextAux : Nat → Nat → List Char → List Char
  | 0, _, acc => acc
  | fuel + 1, n, acc =>
    if n < 10 then digitChar n :: acc
    else natTextAux fuel (n / 10) (digitChar (n % 10) :: acc)

/-- The decimal text of a natural number. -/
def natText (n : Nat) : List Char := natTextAux (n + 1) n []

/-- The decimal text of an integer. -/
def intText (v : Int) : List Char :=
  if v < 0 then '-' :: natText (-v).toNat else natText v.toNat

/-- The hexadecimal digit `d` as a character, in lower case. -/
def hexDigitChar (d : Nat) : Char := if d < 10 then Char.ofNat (48 + d) else Char.ofNat (87 + d)

/-- The hexadecimal digits of `n` in front of `acc`, with a budget of digits. -/
def hexTextAux : Nat → Nat → List Char → List Char
  | 0, _, acc => acc
  | fuel + 1, n, acc =>
    if n < 16 then hexDigitChar n :: acc
    else hexTextAux fuel (n / 16) (hexDigitChar (n % 16) :: acc)

/-- The hexadecimal digits of a natural number, without the `0x`. -/
def hexText (n : Nat) : List Char := hexTextAux (n + 1) n []

/-- A hexadecimal digit character in lower case. -/
def IsHex (c : Char) : Prop :=
  (48 ≤ c.toNat ∧ c.toNat ≤ 57) ∨ (97 ≤ c.toNat ∧ c.toNat ≤ 102)

/-! ## A sample of the static tables -/

/-- Modelled from the spec: the static tables (§3, §6) are outside `parser.c`.
This is a small instance of them with the operand codes of the GCN scalar
formats: categories numbered in the order of §3 (SIMPLE 0, SGPR 1, TTMP 2,
ZERO 3, INLINE_POSITIVE 4, INLINE_NEGATIVE 5, LITERAL 6), the destination
threshold at the first constant category, one SOP2 instruction and one
instruction of another family. -/
def sampleTables : Tables where
  isa_instr_list :=
    [ { name := "s_add_u32".toList, encoding := 0, op_code := 0x80000000 },
      { name := "s_mov_b32".toList, encoding := 1, op_code := 0xbe800300 } ]
  isa_simple_operand_list :=
    [ { name := "vcc_lo".toList, op_code := 106, type := 0 },
      { name := "vcc_hi".toList, op_code := 107, type := 0 },
      { name := "m0".toList, op_code := 124, type := 0 },
      { name := "exec_lo".toList, op_code := 126, type := 0 },
      { name := "exec_hi".toList, op_code := 127, type := 0 } ]
  SOP2 := 0
  SGPR_OP := { name := "sgpr".toList, op_code := 0, type := 1 }
  TTMP_OP := { name := "ttmp".toList, op_code := 112, type := 2 }
  ZERO_OP := { name := "zero".toList, op_code := 128, type := 3 }
  INL_POS_OP := { name := "inl_pos".toList, op_code := 129, type := 4 }
  INL_NEG_OP := { name := "inl_neg".toList, op_code := 193, type := 5 }
  LITERAL_OP := { name := "literal".toList, op_code := 255, type := 6 }
  LITERAL := 6
  SDST_OPERAND_TRESHOLD := 3

/-- The SOP2 entry of `sampleTables`. -/
def sampleAdd : isa_instr :=
  { name := "s_add_u32".toList, encoding := 0, op_code := 0x80000000 }

/-- Modelled from the spec: `sampleTables` with another simple-operand table, in
which one name is a prefix of another (`exec` before `exec_lo`) and one name
starts with the register prefix `s` (`scc`); §3 leaves the order of such
entries to the table. -/
def prefixTables : Tables :=
  { sampleTables with
    isa_simple_operand_list :=
      [ { name := "scc".toList, op_code := 253, type := 0 },
        { name := "exec".toList, op_code := 126, type := 0 },
        { name := "exec_lo".toList, op_code := 126, type := 0 },
        { name := "exec_hi".toList, op_code := 127, type := 0 } ] }

/-! ## The tokenizer in closed form -/

/-- The result of `getField` on a text, by recursion on the text: leading
delimiters are skipped one by one; the field is the run of characters up to the
next delimiter; a text without any other character ends in `strlen(NULL)`. -/
def fieldOf (d : List Char) : List Char → Except Failure (List Char × Option (List Char))
  | [] => .error .nullDeref
  | c :: cs =>
    if d.contains c then fieldOf d cs
    else .ok ((c :: cs).takeWhile (fun x => !d.contains x), (strsep (some (c :: cs)) d).2)

/-! ## Lines of three operands -/

/-- The line `M f1, f2, f3`: a mnemonic, a blank, and three operand fields
separated by a comma and a blank. -/
def lineOf (M f1 f2 f3 : List Char) : List Char :=
  M ++ ' ' :: (f1 ++ ',' :: ' ' :: (f2 ++ ',' :: ' ' :: f3))

/-- A token: a non-empty text without a field delimiter or a comment
delimiter. -/
def Plain (s : List Char) : Prop :=
  s ≠ [] ∧ ∀ c ∈ s, c ∉ field_delimiter ∧ c ∉ comment_delimiter

instance (s : List Char) : Decidable (Plain s) := by
  unfold Plain
  infer_instance

/-! ## Consistency of the tables -/

/-- Modelled from the spec: the category tags and the destination threshold are
declared outside `parser.c`. §3 lists the categories SGPR, TTMP, ZERO,
INLINE_POSITIVE, INLINE_NEGATIVE and LITERAL as distinct; §4.4 puts the
register categories below the destination threshold and the constant
categories at or beyond it; the descriptor `LITERAL_OP` carries the tag
`LITERAL` the encoder compares with. -/
structure Tables.Consistent (T : Tables) : Prop where
  sgpr_lt : T.SGPR_OP.type < T.SDST_OPERAND_TRESHOLD
  ttmp_lt : T.TTMP_OP.type < T.SDST_OPERAND_TRESHOLD
  zero_ge : T.SDST_OPERAND_TRESHOLD ≤ T.ZERO_OP.type
  pos_ge : T.SDST_OPERAND_TRESHOLD ≤ T.INL_POS_OP.type
  neg_ge : T.SDST_OPERAND_TRESHOLD ≤ T.INL_NEG_OP.type
  lit_ge : T.SDST_OPERAND_TRESHOLD ≤ T.LITERAL_OP.type
  lit_tag : T.LITERAL_OP.type = T.LITERAL
  zero_ne : T.ZERO_OP.type ≠ T.LITERAL
  pos_ne : T.INL_POS_OP.type ≠ T.LITERAL
  neg_ne : T.INL_NEG_OP.type ≠ T.LITERAL

/-- A decimal digit character. -/
def IsDec (c : Char) : Prop := 48 ≤ c.toNat ∧ c.toNat ≤ 57

/-! ## Characters and digits -/

theorem sampleTables_consistent : sampleTables.Consistent := by
  constructor <;> decide

theorem digitChar_toNat (d : Nat) (h : d < 10) : (digitChar d).toNat = 48 + d := by
  interval_cases d <;> rfl

theorem isDec_digitChar (d : Nat) (h : d < 10) : IsDec (digitChar d) := by
  unfold IsDec
  rw [digitChar_toNat d h]
  omega

theorem digitVal_digitChar (d : Nat) (h : d < 10) : digitVal (digitChar d) = some d := by
  interval_cases d <;> rfl

theorem isDigitIn_digitChar (d : Nat) (h : d < 10) : isDigitIn 10 (digitChar d) = true := by
  interval_cases d <;> rfl

theorem IsDec.ne_of_toNat {c : Char} (h : IsDec c) (x : Char)
    (hx : x.toNat < 48 ∨ 57 < x.toNat) : c ≠ x := by
  intro e
  subst e
  unfold IsDec at h
  omega

theorem IsDec.isDigitIn {c : Char} (h : IsDec c) : isDigitIn 10 c = true := by
  unfold IsDec at h
  unfold Gcnasm.isDigitIn digitVal
  rw [if_pos h]
  simp only [decide_eq_true_eq]
  omega

theorem IsDec.not_isspace {c : Char} (h : IsDec c) : isspace c = false := by
  unfold IsDec at h
  unfold isspace
  simp only [Bool.or_eq_false_iff, decide_eq_false_iff_not, Bool.and_eq_false_imp,
    decide_eq_true_eq]
  omega

theorem IsDec.tolower {c : Char} (h : IsDec c) : tolower c = c := by
  unfold IsDec at h
  unfold Gcnasm.tolower
  rw [if_neg (by omega)]

/-! ## Decimal texts -/

theorem natTextAux_all (fuel n : Nat) (acc : List Char) (hacc : ∀ c ∈ acc, IsDec c) :
    ∀ c ∈ natTextAux fuel n acc, IsDec c := by
  induction fuel generalizing n acc with
  | zero => simpa [natTextAux] using hacc
  | succ fuel ih =>
    unfold natTextAux
    split
    · intro c hc
      rcases List.mem_cons.mp hc with rfl | hc
      · exact isDec_digitChar n (by omega)
      · exact hacc c hc
    · apply ih
      intro c hc
      rcases List.mem_cons.mp hc with rfl | hc
      · exact isDec_digitChar _ (Nat.mod_lt _ (by decide))
      · exact hacc c hc

theorem natText_all (n : Nat) : ∀ c ∈ natText n, IsDec c :=
  natTextAux_all (n + 1) n [] (by simp)

theorem natTextAux_ne_nil (fuel n : Nat) (acc : List Char) (h : n < fuel) :
    natTextAux fuel n acc ≠ [] := by
  induction fuel generalizing n acc with
  | zero => omega
  | succ fuel ih =>
    unfold natTextAux
    split
    · simp
    · apply ih
      omega

theorem natText_ne_nil (n : Nat) : natText n ≠ [] :=
  natTextAux_ne_nil (n + 1) n [] (by omega)

theorem scanDigits_natTextAux (fuel n : Nat) (acc : List Char) (h : n < fuel) :
    ∃ k, ∀ a, scanDigits 10 (natTextAux fuel n acc) a = scanDigits 10 acc (a * 10 ^ k + n) := by
  induction fuel generalizing n acc with
  | zero => omega
  | succ fuel ih =>
    unfold natTextAux
    split
    · rename_i hn
      refine ⟨1, fun a => ?_⟩
      simp [scanDigits, isDigitIn_digitChar n hn, digitVal_digitChar n hn]
    · rename_i hn
      obtain ⟨k, hk⟩ := ih (n / 10) (digitChar (n % 10) :: acc) (by omega)
      refine ⟨k + 1, fun a => ?_⟩
      have hm : n % 10 < 10 := Nat.mod_lt _ (by decide)
      rw [hk a]
      simp only [scanDigits, isDigitIn_digitChar _ hm, digitVal_digitChar _ hm, if_true,
        Option.getD_some]
      congr 1
      rw [pow_succ]
      have := Nat.div_add_mod n 10
      nlinarith [this]

theorem scanDigits_natText (n : Nat) : scanDigits 10 (natText n) 0 = (n, []) := by
  obtain ⟨k, hk⟩ := scanDigits_natTextAux (n + 1) n [] (by omega)
  rw [natText, hk 0]
  simp [scanDigits]

/-! ## `strtol` on decimal texts -/

theorem takeHexPrefix_ten (s : List Char) : takeHexPrefix 10 s = s := by
  unfold takeHexPrefix
  split <;> simp

theorem takeSign_of_isDec (c : Char) (r : List Char) (h : IsDec c) :
    takeSign (c :: r) = (false, c :: r) := by
  have h1 : c ≠ '-' := h.ne_of_toNat _ (by decide)
  have h2 : c ≠ '+' := h.ne_of_toNat _ (by decide)
  simp [takeSign, h1, h2]

theorem strtol_natText (n : Nat) : strtol (natText n) 10 = (clampLong n, []) := by
  have hne := natText_ne_nil n
  have hall := natText_all n
  have hscan := scanDigits_natText n
  cases hs : natText n with
  | nil => exact absurd hs hne
  | cons c r =>
    rw [hs] at hall hscan
    have hc : IsDec c := hall c (List.mem_cons_self _ _)
    simp [strtol, List.dropWhile, hc.not_isspace, takeSign_of_isDec c r hc, takeHexPrefix_ten,
      hc.isDigitIn, hscan]

theorem strtol_neg_natText (n : Nat) :
    strtol ('-' :: natText n) 10 = (clampLong (-(n : Int)), []) := by
  have hne := natText_ne_nil n
  have hall := natText_all n
  have hscan := scanDigits_natText n
  cases hs : natText n with
  | nil => exact absurd hs hne
  | cons c r =>
    rw [hs] at hall hscan
    have hc : IsDec c := hall c (List.mem_cons_self _ _)
    have hsp : isspace '-' = false := by decide
    simp [strtol, List.dropWhile, hsp, takeSign, takeHexPrefix_ten, hc.isDigitIn, hscan]

theorem strtol_intText (v : Int) : strtol (intText v) 10 = (clampLong v, []) := by
  unfold intText
  split
  · rename_i h
    rw [strtol_neg_natText]
    congr 2
    omega
  · rename_i h
    rw [strtol_natText]
    congr 2
    omega

theorem clampLong_of_range (v : Int) (h1 : LONG_MIN ≤ v) (h2 : v ≤ LONG_MAX) :
    clampLong v = v := by
  unfold clampLong
  rw [if_neg (by omega), if_neg (by omega)]

theorem clampLong_lt (v b : Int) (hb : LONG_MIN < b) (h : v < b) : clampLong v < b := by
  unfold clampLong
  split
  · unfold LONG_MAX at *
    omega
  · split
    · exact hb
    · exact h

theorem clampLong_gt (v b : Int) (hb : b < LONG_MAX) (h : b < v) : b < clampLong v := by
  unfold clampLong
  split
  · exact hb
  · split
    · unfold LONG_MIN LONG_MAX at *
      omega
    · exact h

/-- The first character of the decimal text of an integer: a digit or `-`. -/
theorem intText_head (v : Int) :
    ∃ c r, intText v = c :: r ∧ (IsDec c ∨ c = '-') ∧ ∀ x ∈ r, IsDec x := by
  unfold intText
  split
  · exact ⟨'-', _, rfl, Or.inr rfl, natText_all _⟩
  · cases hs : natText v.toNat with
    | nil => exact absurd hs (natText_ne_nil _)
    | cons c r =>
      have hall := natText_all v.toNat
      rw [hs] at hall
      exact ⟨c, r, rfl, Or.inl (hall c (List.mem_cons_self _ _)),
        fun x hx => hall x (List.mem_cons_of_mem _ hx)⟩

/-! ## `parseOperand` on decimal and register texts -/

theorem not_hexPrefix_intText (v : Int) : ['0', 'x'].isPrefixOf (intText v) = false := by
  obtain ⟨c, r, hs, hc, hr⟩ := intText_head v
  rw [hs]
  cases r with
  | nil => simp [List.isPrefixOf]
  | cons x r' =>
    have hx : IsDec x := hr x (List.mem_cons_self _ _)
    have : 'x' ≠ x := (hx.ne_of_toNat _ (by decide)).symm
    simp [List.isPrefixOf, this]

theorem intText_head_not_reg (v : Int) (p : Char) (hp : p.toNat = 115 ∨ p.toNat = 116) :
    tolower ((intText v).headD (Char.ofNat 0)) ≠ p := by
  obtain ⟨c, r, hs, hc, -⟩ := intText_head v
  rw [hs, List.headD_cons]
  rcases hc with hc | rfl
  · rw [hc.tolower]
    exact hc.ne_of_toNat _ (by omega)
  · intro e
    rw [← e] at hp
    revert hp
    decide

/-- The numeric branch of `parseOperand` on the decimal text of an integer. -/
theorem parseOperand_intText (T : Tables) (v : Int) (hs : simpleMatch T (intText v) = none) :
    parseOperand T (intText v) = .ok (classifyValue T (clampLong v)) := by
  have h1 := intText_head_not_reg v 's' (by decide)
  have h2 := intText_head_not_reg v 't' (by decide)
  unfold parseOperand
  rw [hs]
  simp only [if_neg h1, if_neg h2, not_hexPrefix_intText, strtol_intText]
  simp

/-- The SGPR branch of `parseOperand` on a register prefix and a decimal text. -/
theorem parseOperand_sgpr (T : Tables) (p : Char) (k : Int) (hp : p = 's' ∨ p = 'S')
    (hs : simpleMatch T (p :: intText k) = none) :
    parseOperand T (p :: intText k) =
      if clampLong k < 0 ∨ clampLong k > 103 then .error (.error "invalid SGPR number")
      else .ok { op_code := toU32 (T.SGPR_OP.op_code + clampLong k), value := clampLong k,
                 op_type := T.SGPR_OP } := by
  have h1 : tolower p = 's' := by rcases hp with rfl | rfl <;> decide
  simp [parseOperand, hs, h1, strtol_intText]

/-- The TTMP branch of `parseOperand` on a register prefix and a decimal text. -/
theorem parseOperand_ttmp (T : Tables) (p : Char) (k : Int) (hp : p = 't' ∨ p = 'T')
    (hs : simpleMatch T (p :: intText k) = none) :
    parseOperand T (p :: intText k) =
      if clampLong k < 0 ∨ clampLong k > 11 then .error (.error "invalid TTMP number")
      else .ok { op_code := toU32 (T.TTMP_OP.op_code + clampLong k), value := clampLong k,
                 op_type := T.TTMP_OP } := by
  have h0 : tolower p ≠ 's' := by rcases hp with rfl | rfl <;> decide
  have h1 : tolower p = 't' := by rcases hp with rfl | rfl <;> decide
  simp [parseOperand, hs, h0, h1, strtol_intText]

theorem u32_of_lt (n : Nat) (h : n < 2 ^ 32) : u32 n = n := Nat.mod_eq_of_lt h

/-! ## The tokenizer -/

theorem getFieldLoop_eq_fieldOf (d : List Char) (s : List Char) (n : Nat)
    (h : s.length + 2 ≤ n) : getFieldLoop d n (some s) = fieldOf d s := by
  induction s generalizing n with
  | nil =>
    obtain ⟨m, rfl⟩ : ∃ m, n = m + 2 := ⟨n - 2, by simp at h; omega⟩
    simp [getFieldLoop, strsep, fieldOf]
  | cons c cs ih =>
    obtain ⟨m, rfl⟩ : ∃ m, n = m + 1 := ⟨n - 1, by omega⟩
    have hm : cs.length + 2 ≤ m := by simp at h; omega
    by_cases hc : c ∈ d
    · simp [getFieldLoop, strsep, fieldOf, hc, ih m hm]
    · simp [getFieldLoop, strsep, fieldOf, hc]

theorem getField_some (d s : List Char) : getField (some s) d = fieldOf d s :=
  getFieldLoop_eq_fieldOf d s _ (by simp)

theorem getField_none (d : List Char) : getField none d = .error .nullDeref := rfl

theorem fieldOf_ne_outOfFuel (d s : List Char) : fieldOf d s ≠ .error .outOfFuel := by
  induction s with
  | nil => simp [fieldOf]
  | cons c cs ih =>
    unfold fieldOf
    split
    · exact ih
    · simp

/-- The loop budget of `getField` is never used up. -/
theorem getField_ne_outOfFuel (line : Option (List Char)) (d : List Char) :
    getField line d ≠ .error .outOfFuel := by
  cases line with
  | none => simp [getField_none]
  | some s =>
    rw [getField_some]
    exact fieldOf_ne_outOfFuel d s

theorem fieldOf_skip (d : List Char) (c : Char) (s : List Char) (hc : c ∈ d) :
    fieldOf d (c :: s) = fieldOf d s := by
  simp [fieldOf, hc]

/-- A field followed by a delimiter. -/
theorem fieldOf_token (d f : List Char) (c : Char) (rest : List Char) (hf : f ≠ [])
    (hfd : ∀ x ∈ f, x ∉ d) (hc : c ∈ d) :
    fieldOf d (f ++ c :: rest) = .ok (f, some rest) := by
  cases f with
  | nil => exact absurd rfl hf
  | cons a f' =>
    have ha : a ∉ d := hfd a (List.mem_cons_self _ _)
    have hp : ∀ x ∈ a :: f', (!decide (x ∈ d)) = true := by
      intro x hx
      simpa using hfd x hx
    have h1 : (a :: f' ++ c :: rest).takeWhile (fun x => !decide (x ∈ d)) = a :: f' := by
      rw [List.takeWhile_append_of_pos hp, List.takeWhile_cons_of_neg (by simpa using hc)]
      simp
    have h2 : (a :: f' ++ c :: rest).dropWhile (fun x => !decide (x ∈ d)) = c :: rest := by
      rw [List.dropWhile_append_of_pos hp, List.dropWhile_cons_of_neg (by simpa using hc)]
    simp only [List.cons_append] at h1 h2
    simp [fieldOf, ha, strsep, h1, h2]

/-- A field that runs to the end of the text. -/
theorem fieldOf_last (d f : List Char) (hf : f ≠ []) (hfd : ∀ x ∈ f, x ∉ d) :
    fieldOf d f = .ok (f, none) := by
  cases f with
  | nil => exact absurd rfl hf
  | cons a f' =>
    have ha : a ∉ d := hfd a (List.mem_cons_self _ _)
    have hp : ∀ x ∈ a :: f', (!decide (x ∈ d)) = true := by
      intro x hx
      simpa using hfd x hx
    have h1 : (a :: f').takeWhile (fun x => !decide (x ∈ d)) = a :: f' :=
      List.takeWhile_eq_self_iff.mpr hp
    have h2 : (a :: f').dropWhile (fun x => !decide (x ∈ d)) = [] :=
      List.dropWhile_eq_nil_iff.mpr hp
    simp [fieldOf, ha, strsep, h1, h2]

theorem toU32_of_nonneg (i : Int) (h0 : 0 ≤ i) (h : i < 2 ^ 32) : toU32 i = i.toNat := by
  unfold toU32
  rw [Int.emod_eq_of_lt h0 h]

theorem classifyValue_zero (T : Tables) :
    classifyValue T 0 = { op_code := T.ZERO_OP.op_code, value := 0, op_type := T.ZERO_OP } := by
  simp [classifyValue]

theorem classifyValue_pos (T : Tables) (v : Int) (h1 : 1 ≤ v) (h2 : v ≤ 64)
    (hP : T.INL_POS_OP.op_code + 63 < 2 ^ 32) :
    classifyValue T v =
      { op_code := ((T.INL_POS_OP.op_code : Int) + v - 1).toNat, value := v,
        op_type := T.INL_POS_OP } := by
  have e : toU32 ((T.INL_POS_OP.op_code : Int) + v - 1)
      = ((T.INL_POS_OP.op_code : Int) + v - 1).toNat :=
    toU32_of_nonneg _ (by omega) (by omega)
  unfold classifyValue
  rw [if_neg (by omega), if_pos (by omega), e]

theorem classifyValue_neg (T : Tables) (v : Int) (h1 : -16 ≤ v) (h2 : v ≤ -1)
    (hN : T.INL_NEG_OP.op_code + 15 < 2 ^ 32) :
    classifyValue T v =
      { op_code := ((T.INL_NEG_OP.op_code : Int) + (-v) - 1).toNat, value := v,
        op_type := T.INL_NEG_OP } := by
  have e : toU32 ((T.INL_NEG_OP.op_code : Int) + (-v) - 1)
      = ((T.INL_NEG_OP.op_code : Int) + (-v) - 1).toNat :=
    toU32_of_nonneg _ (by omega) (by omega)
  unfold classifyValue
  rw [if_neg (by omega), if_neg (by omega), if_pos (by omega), e]

theorem classifyValue_literal (T : Tables) (v : Int) (h : v < -16 ∨ 64 < v) :
    classifyValue T v =
      { op_code := T.LITERAL_OP.op_code, value := v, op_type := T.LITERAL_OP } := by
  unfold classifyValue
  rw [if_neg (by omega), if_neg (by omega), if_neg (by omega)]

theorem clampLong_small (v : Int) (h1 : -(2 ^ 63) ≤ v) (h2 : v < 2 ^ 63) : clampLong v = v :=
  clampLong_of_range v (by unfold LONG_MIN; omega) (by unfold LONG_MAX; omega)

/-! ## The encoder, stage by stage -/

theorem parseSOP2_of_fields (T : Tables) (instr : isa_instr) (line : Option (List Char))
    (dst src1 src0 : List Char) (hf : sop2Fields line = .ok (dst, src1, src0)) :
    parseSOP2 T instr line =
      (do let oc ← sop2Dst T instr dst
          let oc ← sop2Src T 8 oc src1
          let oc ← sop2Src T 0 oc src0
          pure (sop2Print oc)) := by
  unfold parseSOP2
  rw [hf]
  rfl

theorem sop2Dst_of_error (T : Tables) (instr : isa_instr) (dst : List Char) (f : Failure)
    (h : parseOperand T dst = .error f) : sop2Dst T instr dst = .error f := by
  simp only [sop2Dst, h]

theorem sop2Dst_of_ok (T : Tables) (instr : isa_instr) (dst : List Char) (op : isa_operand)
    (h : parseOperand T dst = .ok op) :
    sop2Dst T instr dst =
      if T.SDST_OPERAND_TRESHOLD ≤ op.op_type.type then
        .error (.error "incorrect value for SDST operand")
      else .ok { code := u32 instr.op_code ||| u32 (op.op_code <<< 16), literal := 0,
                 literal_set := false } := by
  simp only [sop2Dst, h, ge_iff_le]

theorem sop2Src_of_error (T : Tables) (shift : Nat) (oc : isa_op_code) (src : List Char)
    (f : Failure) (h : parseOperand T src = .error f) : sop2Src T shift oc src = .error f := by
  simp only [sop2Src, h]

theorem sop2Src_of_ok (T : Tables) (shift : Nat) (oc : isa_op_code) (src : List Char)
    (op : isa_operand) (h : parseOperand T src = .ok op) :
    sop2Src T shift oc src =
      if op.op_type.type = T.LITERAL then
        if oc.literal_set then .error (.error "at most one literal constant can be used")
        else .ok { code := oc.code ||| u32 (op.op_code <<< shift),
                   literal := toU32 op.value, literal_set := true }
      else .ok { oc with code := oc.code ||| u32 (op.op_code <<< shift) } := by
  simp only [sop2Src, h]
  by_cases hc : op.op_type.type = T.LITERAL
  · by_cases hl : oc.literal_set = true
    · simp only [hc, if_true, setLiteralOperand, hl]
    · simp only [hc, if_true, setLiteralOperand, hl]
      rfl
  · simp only [hc, if_false]

theorem parseOperand_ne_sdst (T : Tables) (s : List Char) :
    parseOperand T s ≠ .error (.error "incorrect value for SDST operand") := by
  unfold parseOperand
  repeat' split
  all_goals simp

theorem shl16_lt (x : Nat) (h : x < 2 ^ 16) : x <<< 16 < 2 ^ 32 := by
  rw [Nat.shiftLeft_eq]
  calc x * 2 ^ 16 < 2 ^ 16 * 2 ^ 16 := Nat.mul_lt_mul_of_pos_right h (by norm_num)
    _ = 2 ^ 32 := by norm_num

theorem shl8_lt (x : Nat) (h : x < 2 ^ 24) : x <<< 8 < 2 ^ 32 := by
  rw [Nat.shiftLeft_eq]
  calc x * 2 ^ 8 < 2 ^ 24 * 2 ^ 8 := Nat.mul_lt_mul_of_pos_right h (by norm_num)
    _ = 2 ^ 32 := by norm_num

/-- The SGPR branch, in and out of range. -/
theorem parseOperand_sgpr_range (T : Tables) (p : Char) (k : Int) (hp : p = 's' ∨ p = 'S')
    (hs : simpleMatch T (p :: intText k) = none)
    (hG : T.SGPR_OP.op_code + 103 < 2 ^ 32) :
    (0 ≤ k ∧ k ≤ 103 → parseOperand T (p :: intText k) =
      .ok { op_code := T.SGPR_OP.op_code + k.toNat, value := k, op_type := T.SGPR_OP }) ∧
    (k < 0 ∨ 103 < k → parseOperand T (p :: intText k) =
      .error (.error "invalid SGPR number")) := by
  rw [parseOperand_sgpr T p k hp hs]
  refine ⟨fun h => ?_, fun h => ?_⟩
  · rw [clampLong_small k (by omega) (by omega), if_neg (by omega)]
    have e : toU32 ((T.SGPR_OP.op_code : Int) + k) = T.SGPR_OP.op_code + k.toNat := by
      rw [toU32_of_nonneg _ (by omega) (by omega)]
      omega
    rw [e]
  · rw [if_pos]
    rcases h with h | h
    · exact Or.inl (clampLong_lt k 0 (by decide) h)
    · exact Or.inr (clampLong_gt k 103 (by decide) h)

/-- The TTMP branch, in and out of range. -/
theorem parseOperand_ttmp_range (T : Tables) (p : Char) (k : Int) (hp : p = 't' ∨ p = 'T')
    (hs : simpleMatch T (p :: intText k) = none)
    (hM : T.TTMP_OP.op_code + 11 < 2 ^ 32) :
    (0 ≤ k ∧ k ≤ 11 → parseOperand T (p :: intText k) =
      .ok { op_code := T.TTMP_OP.op_code + k.toNat, value := k, op_type := T.TTMP_OP }) ∧
    (k < 0 ∨ 11 < k → parseOperand T (p :: intText k) =
      .error (.error "invalid TTMP number")) := by
  rw [parseOperand_ttmp T p k hp hs]
  refine ⟨fun h => ?_, fun h => ?_⟩
  · rw [clampLong_small k (by omega) (by omega), if_neg (by omega)]
    have e : toU32 ((T.TTMP_OP.op_code : Int) + k) = T.TTMP_OP.op_code + k.toNat := by
      rw [toU32_of_nonneg _ (by omega) (by omega)]
      omega
    rw [e]
  · rw [if_pos]
    rcases h with h | h
    · exact Or.inl (clampLong_lt k 0 (by decide) h)
    · exact Or.inr (clampLong_gt k 11 (by decide) h)

theorem sop2Src_ne_sdst (T : Tables) (shift : Nat) (oc : isa_op_code) (src : List Char) :
    sop2Src T shift oc src ≠ .error (.error "incorrect value for SDST operand") := by
  cases h : parseOperand T src with
  | error f =>
    rw [sop2Src_of_error T shift oc src f h]
    have := parseOperand_ne_sdst T src
    rw [h] at this
    intro e
    exact this (congrArg Except.error (Except.error.inj e))
  | ok op =>
    rw [sop2Src_of_ok T shift oc src op h]
    repeat' split
    all_goals simp

/-- Once the destination is accepted, no later step reports the SDST error. -/
theorem sources_ne_sdst (T : Tables) (oc : isa_op_code) (src1 src0 : List Char) :
    (do let oc ← sop2Src T 8 oc src1
        let oc ← sop2Src T 0 oc src0
        pure (sop2Print oc) : Except Failure (List Event)) ≠
      .error (.error "incorrect value for SDST operand") := by
  cases h1 : sop2Src T 8 oc src1 with
  | error f =>
    have := sop2Src_ne_sdst T 8 oc src1
    rw [h1] at this
    simpa [bind, Except.bind] using this
  | ok oc1 =>
    cases h0 : sop2Src T 0 oc1 src0 with
    | error f =>
      have := sop2Src_ne_sdst T 0 oc1 src0
      rw [h0] at this
      simpa [bind, Except.bind, h0] using this
    | ok oc0 => simp [bind, Except.bind, h0, pure, Except.pure]

/-- A field that `parseOperand` rejects makes `parseSOP2` fail, in any of the
three positions. -/
theorem parseSOP2_error_of_field (T : Tables) (instr : isa_instr) (line : Option (List Char))
    (dst src1 src0 bad : List Char) (f : Failure)
    (hf : sop2Fields line = .ok (dst, src1, src0))
    (hbad : parseOperand T bad = .error f)
    (hmem : dst = bad ∨ src1 = bad ∨ src0 = bad) :
    ∃ g, parseSOP2 T instr line = .error g := by
  rw [parseSOP2_of_fields T instr line _ _ _ hf]
  cases hd : sop2Dst T instr dst with
  | error g => exact ⟨g, rfl⟩
  | ok oc =>
    cases h1 : sop2Src T 8 oc src1 with
    | error g => exact ⟨g, by simp [bind, Except.bind, h1]⟩
    | ok oc1 =>
      cases h0 : sop2Src T 0 oc1 src0 with
      | error g => exact ⟨g, by simp [bind, Except.bind, h1, h0]⟩
      | ok oc0 =>
        exfalso
        rcases hmem with e | e | e
        · subst e
          rw [sop2Dst_of_error T instr _ f hbad] at hd
          cases hd
        · subst e
          rw [sop2Src_of_error T 8 oc _ f hbad] at h1
          cases h1
        · subst e
          rw [sop2Src_of_error T 0 oc1 _ f hbad] at h0
          cases h0

/-! ## Whole lines -/

theorem IsDec.plain {c : Char} (h : IsDec c) : c ∉ field_delimiter ∧ c ∉ comment_delimiter := by
  have h1 : c ≠ ',' := h.ne_of_toNat _ (by decide)
  have h2 : c ≠ ' ' := h.ne_of_toNat _ (by decide)
  have h3 : c ≠ '\t' := h.ne_of_toNat _ (by decide)
  have h4 : c ≠ ';' := h.ne_of_toNat _ (by decide)
  simp [field_delimiter, comment_delimiter, h1, h2, h3, h4]

theorem plain_natText (n : Nat) : Plain (natText n) :=
  ⟨natText_ne_nil n, fun c hc => (natText_all n c hc).plain⟩

theorem plain_cons (c : Char) (s : List Char)
    (hc : c ∉ field_delimiter ∧ c ∉ comment_delimiter)
    (hs : ∀ x ∈ s, x ∉ field_delimiter ∧ x ∉ comment_delimiter) : Plain (c :: s) := by
  refine ⟨by simp, fun x hx => ?_⟩
  rcases List.mem_cons.mp hx with rfl | hx
  · exact hc
  · exact hs x hx

theorem plain_append (s t : List Char) (hs : Plain s)
    (ht : ∀ x ∈ t, x ∉ field_delimiter ∧ x ∉ comment_delimiter) : Plain (s ++ t) := by
  refine ⟨by simp [hs.1], fun x hx => ?_⟩
  rcases List.mem_append.mp hx with hx | hx
  · exact hs.2 x hx
  · exact ht x hx

theorem plain_reg_natText (p : Char) (n : Nat)
    (hp : p ∉ field_delimiter ∧ p ∉ comment_delimiter) : Plain (p :: natText n) :=
  plain_cons p _ hp (plain_natText n).2

theorem plain_intText (v : Int) : Plain (intText v) := by
  unfold intText
  split
  · exact plain_cons _ _ (by decide) (plain_natText _).2
  · exact plain_natText _

theorem intText_natCast (n : Nat) : intText (n : Int) = natText n := by
  unfold intText
  rw [if_neg (by omega)]
  simp

theorem trimNewline_newline (s : List Char) : trimNewline (s ++ ['\n']) = s := by
  simp [trimNewline]

/-- The text of an integer, with or without the newline that ends the line, is
trimmed to the text of the integer. -/
theorem trimNewline_intText (v : Int) (nl : List Char) (hnl : nl = [] ∨ nl = ['\n']) :
    trimNewline (intText v ++ nl) = intText v := by
  rcases hnl with rfl | rfl
  · obtain ⟨c, r, hs, hc, hr⟩ := intText_head v
    rw [List.append_nil]
    have hlast : ∀ x, (intText v).getLast? = some x → x ≠ '\n' := by
      intro x hx
      have hm : x ∈ intText v := List.mem_of_getLast?_eq_some hx
      rw [hs] at hm
      rcases List.mem_cons.mp hm with rfl | hm
      · rcases hc with hc | rfl
        · exact hc.ne_of_toNat _ (by decide)
        · decide
      · exact (hr x hm).ne_of_toNat _ (by decide)
    unfold trimNewline
    rw [if_neg]
    intro h
    exact hlast _ h rfl
  · exact trimNewline_newline _

theorem sop2Fields_three (f1 f2 f3 : List Char) (h1 : Plain f1) (h2 : Plain f2)
    (h3 : Plain f3) :
    sop2Fields (some (f1 ++ ',' :: ' ' :: (f2 ++ ',' :: ' ' :: f3))) =
      .ok (f1, f2, trimNewline f3) := by
  have e1 : getField (some (f1 ++ ',' :: ' ' :: (f2 ++ ',' :: ' ' :: f3))) field_delimiter =
      .ok (f1, some (' ' :: (f2 ++ ',' :: ' ' :: f3))) := by
    rw [getField_some]
    exact fieldOf_token _ f1 ',' _ h1.1 (fun x hx => (h1.2 x hx).1) (by decide)
  have e2 : getField (some (' ' :: (f2 ++ ',' :: ' ' :: f3))) field_delimiter =
      .ok (f2, some (' ' :: f3)) := by
    rw [getField_some, fieldOf_skip _ ' ' _ (by decide)]
    exact fieldOf_token _ f2 ',' _ h2.1 (fun x hx => (h2.2 x hx).1) (by decide)
  have e3 : getField (some (' ' :: f3)) field_delimiter = .ok (f3, none) := by
    rw [getField_some, fieldOf_skip _ ' ' _ (by decide)]
    exact fieldOf_last _ f3 h3.1 (fun x hx => (h3.2 x hx).1)
  simp only [sop2Fields, e1, e2, e3, bind, Except.bind, pure, Except.pure]

/-- The driver on a line `M f1, f2, f3` whose mnemonic resolves to a SOP2
instruction: the label, then the three stages of the encoder. -/
theorem parseLine_lineOf (T : Tables) (instr : isa_instr) (M f1 f2 f3 : List Char)
    (hM : Plain M) (h1 : Plain f1) (h2 : Plain f2) (h3 : Plain f3)
    (hfind : T.isa_instr_list.find? (fun e => e.name == M) = some instr)
    (henc : instr.encoding = T.SOP2) :
    parseLine T (lineOf M f1 f2 f3) =
      match (do let oc ← sop2Dst T instr f1
                let oc ← sop2Src T 8 oc f2
                let oc ← sop2Src T 0 oc (trimNewline f3)
                pure (sop2Print oc) : Except Failure (List Event)) with
      | .ok out => ⟨.label instr.name :: out, none⟩
      | .error f => ⟨[.label instr.name], some f⟩ := by
  have hc : ∀ x ∈ lineOf M f1 f2 f3, x ∉ comment_delimiter := by
    intro x hx
    simp only [lineOf, List.mem_append, List.mem_cons] at hx
    rcases hx with hx | rfl | hx | rfl | rfl | hx | rfl | rfl | hx
    · exact (hM.2 x hx).2
    · decide
    · exact (h1.2 x hx).2
    · decide
    · decide
    · exact (h2.2 x hx).2
    · decide
    · decide
    · exact (h3.2 x hx).2
  have hne : lineOf M f1 f2 f3 ≠ [] := by simp [lineOf, hM.1]
  have e1 : getField (some (lineOf M f1 f2 f3)) comment_delimiter =
      .ok (lineOf M f1 f2 f3, none) := by
    rw [getField_some]
    exact fieldOf_last _ _ hne hc
  have e2 : getField (some (lineOf M f1 f2 f3)) field_delimiter =
      .ok (M, some (f1 ++ ',' :: ' ' :: (f2 ++ ',' :: ' ' :: f3))) := by
    rw [getField_some]
    exact fieldOf_token _ M ' ' _ hM.1 (fun x hx => (hM.2 x hx).1) (by decide)
  simp only [parseLine, e1, e2, hfind, henc, if_true,
    parseSOP2_of_fields T instr _ _ _ _ (sop2Fields_three f1 f2 f3 h1 h2 h3)]

theorem Tables.Consistent.sgpr_ne {T : Tables} (hT : T.Consistent) :
    T.SGPR_OP.type ≠ T.LITERAL := by
  have h1 := hT.sgpr_lt
  have h2 := hT.lit_ge
  have h3 := hT.lit_tag
  omega

/-- The destination stage on an SGPR reference. -/
theorem sop2Dst_sgpr (T : Tables) (instr : isa_instr) (d : Nat) (hd : d ≤ 103)
    (hs : simpleMatch T ('s' :: natText d) = none)
    (hreg : T.SGPR_OP.type < T.SDST_OPERAND_TRESHOLD)
    (hB : instr.op_code < 2 ^ 32) (hG : T.SGPR_OP.op_code + 103 < 2 ^ 16) :
    sop2Dst T instr ('s' :: natText d) =
      .ok { code := instr.op_code ||| (T.SGPR_OP.op_code + d) <<< 16, literal := 0,
            literal_set := false } := by
  rw [← intText_natCast] at hs ⊢
  have h8 := (parseOperand_sgpr_range T 's' d (Or.inl rfl) hs (by omega)).1 (by omega)
  have hlt : T.SGPR_OP.op_code + d < 2 ^ 16 := by omega
  rw [sop2Dst_of_ok T instr _ _ h8, if_neg (by simpa using hreg), u32_of_lt _ hB]
  simp only [Int.toNat_ofNat, u32_of_lt _ (shl16_lt _ hlt)]

/-- The first source stage on an SGPR reference. -/
theorem sop2Src_sgpr (T : Tables) (oc : isa_op_code) (a : Nat) (ha : a ≤ 103)
    (hs : simpleMatch T ('s' :: natText a) = none)
    (hne : T.SGPR_OP.type ≠ T.LITERAL) (hG : T.SGPR_OP.op_code + 103 < 2 ^ 16) :
    sop2Src T 8 oc ('s' :: natText a) =
      .ok { oc with code := oc.code ||| (T.SGPR_OP.op_code + a) <<< 8 } := by
  rw [← intText_natCast] at hs ⊢
  have h8 := (parseOperand_sgpr_range T 's' a (Or.inl rfl) hs (by omega)).1 (by omega)
  have hlt : T.SGPR_OP.op_code + a < 2 ^ 24 := by omega
  rw [sop2Src_of_ok T 8 oc _ _ h8, if_neg hne]
  simp only [Int.toNat_ofNat, u32_of_lt _ (shl8_lt _ hlt)]

theorem plain_intText_nl (v : Int) (nl : List Char) (hnl : nl = [] ∨ nl = ['\n']) :
    Plain (intText v ++ nl) := by
  apply plain_append _ _ (plain_intText v)
  rcases hnl with rfl | rfl
  · simp
  · intro x hx
    rw [List.mem_singleton] at hx
    subst hx
    decide

theorem find?_name {l : List isa_instr} {M : List Char} {instr : isa_instr}
    (h : l.find? (fun e => e.name == M) = some instr) : instr.name = M := by
  have := List.find?_some h
  simpa using this

/-- The two register stages of a line `M s<d>, s<a>, f3`. -/
theorem parseLine_two_sgpr (T : Tables) (hT : T.Consistent) (instr : isa_instr)
    (M f3 : List Char) (d a : Nat)
    (hM : Plain M) (h3 : Plain f3)
    (hfind : T.isa_instr_list.find? (fun e => e.name == M) = some instr)
    (henc : instr.encoding = T.SOP2)
    (hd : d ≤ 103) (ha : a ≤ 103)
    (hsd : simpleMatch T ('s' :: natText d) = none)
    (hsa : simpleMatch T ('s' :: natText a) = none)
    (hB : instr.op_code < 2 ^ 32) (hG : T.SGPR_OP.op_code + 103 < 2 ^ 16) :
    parseLine T (lineOf M ('s' :: natText d) ('s' :: natText a) f3) =
      match sop2Src T 0
          { code := instr.op_code ||| (T.SGPR_OP.op_code + d) <<< 16 |||
              (T.SGPR_OP.op_code + a) <<< 8, literal := 0, literal_set := false }
          (trimNewline f3) with
      | .ok oc => ⟨.label M :: sop2Print oc, none⟩
      | .error f => ⟨[.label M], some f⟩ := by
  rw [parseLine_lineOf T instr M _ _ f3 hM (plain_reg_natText 's' d (by decide))
    (plain_reg_natText 's' a (by decide)) h3 hfind henc,
    sop2Dst_sgpr T instr d hd hsd hT.sgpr_lt hB hG, find?_name hfind]
  simp only [bind, Except.bind]
  rw [sop2Src_sgpr T _ a ha hsa hT.sgpr_ne hG]
  simp only
  cases sop2Src T 0 _ (trimNewline f3) <;> rfl

/-! ## The claims -/

/-- C1: for every mnemonic `M` that the instruction table maps to the SOP2 family
with base opcode `B`, every `d` and `a` in `0..103` and every `v` in `1..64`, the
line `M s<d>, s<a>, <v>` (decimal texts, no field matching a simple-operand
prefix, with or without the final newline) is encoded as the packed word
`B | (G+d)<<16 | (G+a)<<8 | (P+v-1)` and no literal is printed, `G` being the
SGPR base code and `P` the inline-positive base code. -/
theorem C1_sop2_inline_round_trip (T : Tables) (hT : T.Consistent) (instr : isa_instr)
    (M nl : List Char) (d a v : Nat)
    (hM : Plain M)
    (hfind : T.isa_instr_list.find? (fun e => e.name == M) = some instr)
    (henc : instr.encoding = T.SOP2)
    (hd : d ≤ 103) (ha : a ≤ 103) (hv1 : 1 ≤ v) (hv2 : v ≤ 64)
    (hnl : nl = [] ∨ nl = ['\n'])
    (hsd : simpleMatch T ('s' :: natText d) = none)
    (hsa : simpleMatch T ('s' :: natText a) = none)
    (hsv : simpleMatch T (natText v) = none)
    (hB : instr.op_code < 2 ^ 32)
    (hG : T.SGPR_OP.op_code + 103 < 2 ^ 16)
    (hP : T.INL_POS_OP.op_code + 63 < 2 ^ 32) :
    parseLine T (lineOf M ('s' :: natText d) ('s' :: natText a) (natText v ++ nl)) =
      ⟨[.label M,
        .word (instr.op_code ||| (T.SGPR_OP.op_code + d) <<< 16 |||
          (T.SGPR_OP.op_code + a) <<< 8 ||| (T.INL_POS_OP.op_code + v - 1))], none⟩ := by
  rw [← intText_natCast v] at hsv ⊢
  have hop := (parseOperand_intText T v hsv).trans
    (congrArg Except.ok (by
      rw [clampLong_small v (by omega) (by omega),
        classifyValue_pos T v (by omega) (by omega) hP]))
  have hcode : ((T.INL_POS_OP.op_code : Int) + (v : Int) - 1).toNat
      = T.INL_POS_OP.op_code + v - 1 := by omega
  rw [parseLine_two_sgpr T hT instr M _ d a hM (plain_intText_nl v nl hnl) hfind henc hd ha
    hsd hsa hB hG, trimNewline_intText v nl hnl, sop2Src_of_ok T 0 _ _ _ hop]
  simp only [if_neg hT.pos_ne, hcode, Nat.shiftLeft_zero]
  rw [u32_of_lt _ (by omega)]
  rfl

/-- C1, at the line `s_add_u32 s5, s3, 42` of the sample tables: the packed word is
`0x80000000 | 5 << 16 | 3 << 8 | (129 + 41)`. -/
theorem C1_sop2_inline_round_trip_witness :
    lineOf "s_add_u32".toList ('s' :: natText 5) ('s' :: natText 3) (natText 42 ++ ['\n']) =
      "s_add_u32 s5, s3, 42\n".toList ∧
    parseLine sampleTables "s_add_u32 s5, s3, 42\n".toList =
      ⟨[.label "s_add_u32".toList, .word 0x800503aa], none⟩ :=
  ⟨by decide,
    C1_sop2_inline_round_trip sampleTables sampleTables_consistent sampleAdd
      "s_add_u32".toList ['\n'] 5 3 42 (by decide) rfl rfl (by decide) (by decide)
      (by decide) (by decide) (Or.inr rfl) (by decide) (by decide) (by decide)
      (by decide) (by decide) (by decide)⟩

/-- C2, as stated, fails: for `v = 2 ^ 63` the literal printed after the packed
word is `0xffffffff` (the saturated value of `strtol`, as a 32-bit word), while
`v` as a 32-bit word is 0. -/
theorem C2_counterexample :
    lineOf "s_add_u32".toList ('s' :: natText 5) ('s' :: natText 3)
        (intText 9223372036854775808 ++ ['\n']) =
      "s_add_u32 s5, s3, 9223372036854775808\n".toList ∧
    parseLine sampleTables "s_add_u32 s5, s3, 9223372036854775808\n".toList =
      ⟨[.label "s_add_u32".toList, .word 0x800503ff, .literal 0xffffffff], none⟩ ∧
    toU32 9223372036854775808 = 0 := by
  refine ⟨by decide, rfl, by decide⟩

/-- C2 (amended): for every SOP2 line whose destination and first source are valid
SGPR references and whose second source is the decimal text of an integer `v`
in the range of `long` and outside the inline ranges (`v > 64` or `v < -16`),
encoding succeeds, the code OR-ed into the SSRC0 position of the packed word
is the LITERAL placeholder code, and a second value equal to `v` as a 32-bit
word is printed. -/
theorem C2_sop2_literal (T : Tables) (hT : T.Consistent) (instr : isa_instr)
    (M nl : List Char) (d a : Nat) (v : Int)
    (hM : Plain M)
    (hfind : T.isa_instr_list.find? (fun e => e.name == M) = some instr)
    (henc : instr.encoding = T.SOP2)
    (hd : d ≤ 103) (ha : a ≤ 103)
    (hv : v < -16 ∨ 64 < v) (hlo : LONG_MIN ≤ v) (hhi : v ≤ LONG_MAX)
    (hnl : nl = [] ∨ nl = ['\n'])
    (hsd : simpleMatch T ('s' :: natText d) = none)
    (hsa : simpleMatch T ('s' :: natText a) = none)
    (hsv : simpleMatch T (intText v) = none)
    (hB : instr.op_code < 2 ^ 32)
    (hG : T.SGPR_OP.op_code + 103 < 2 ^ 16)
    (hL : T.LITERAL_OP.op_code < 2 ^ 32) :
    parseLine T (lineOf M ('s' :: natText d) ('s' :: natText a) (intText v ++ nl)) =
      ⟨[.label M,
        .word (instr.op_code ||| (T.SGPR_OP.op_code + d) <<< 16 |||
          (T.SGPR_OP.op_code + a) <<< 8 ||| T.LITERAL_OP.op_code),
        .literal (toU32 v)], none⟩ := by
  have hop := (parseOperand_intText T v hsv).trans
    (congrArg Except.ok (by
      rw [clampLong_of_range v hlo hhi, classifyValue_literal T v hv]))
  rw [parseLine_two_sgpr T hT instr M _ d a hM (plain_intText_nl v nl hnl) hfind henc hd ha
    hsd hsa hB hG, trimNewline_intText v nl hnl, sop2Src_of_ok T 0 _ _ _ hop]
  simp only [if_pos hT.lit_tag, Nat.shiftLeft_zero]
  rw [u32_of_lt _ hL]
  rfl

/-- C2 (amended), at the line `s_add_u32 s5, s3, 1000` of the sample tables: the
second value printed is `0x000003e8`. -/
theorem C2_sop2_literal_witness :
    lineOf "s_add_u32".toList ('s' :: natText 5) ('s' :: natText 3) (intText 1000 ++ ['\n']) =
      "s_add_u32 s5, s3, 1000\n".toList ∧
    parseLine sampleTables "s_add_u32 s5, s3, 1000\n".toList =
      ⟨[.label "s_add_u32".toList, .word 0x800503ff, .literal 0x000003e8], none⟩ :=
  ⟨by decide,
    C2_sop2_literal sampleTables sampleTables_consistent sampleAdd
      "s_add_u32".toList ['\n'] 5 3 1000 (by decide) rfl rfl (by decide) (by decide)
      (by decide) (by decide) (by decide) (Or.inr rfl) (by decide) (by decide) (by decide)
      (by decide) (by decide) (by decide)⟩

/-- C3: for every integer `v`, `parseOperand` on the decimal text of `v` (no
simple-operand prefix matching it) returns category ZERO with the fixed ZERO
code if `v = 0`, category INLINE_POSITIVE with code `INL_POS base + v - 1` if
`1 ≤ v ≤ 64`, and category INLINE_NEGATIVE with code `INL_NEG base + (-v) - 1`
if `-16 ≤ v ≤ -1` (the codes of the table fitting a 32-bit word). -/
theorem C3_inline_classification (T : Tables) (v : Int)
    (hs : simpleMatch T (intText v) = none)
    (hP : T.INL_POS_OP.op_code + 63 < 2 ^ 32)
    (hN : T.INL_NEG_OP.op_code + 15 < 2 ^ 32) :
    (v = 0 → parseOperand T (intText v) =
      .ok { op_code := T.ZERO_OP.op_code, value := 0, op_type := T.ZERO_OP }) ∧
    (1 ≤ v ∧ v ≤ 64 → parseOperand T (intText v) =
      .ok { op_code := ((T.INL_POS_OP.op_code : Int) + v - 1).toNat, value := v,
            op_type := T.INL_POS_OP }) ∧
    (-16 ≤ v ∧ v ≤ -1 → parseOperand T (intText v) =
      .ok { op_code := ((T.INL_NEG_OP.op_code : Int) + (-v) - 1).toNat, value := v,
            op_type := T.INL_NEG_OP }) := by
  rw [parseOperand_intText T v hs]
  refine ⟨fun h => ?_, fun h => ?_, fun h => ?_⟩
  · subst h
    rw [clampLong_small 0 (by norm_num) (by norm_num), classifyValue_zero T]
  · rw [clampLong_small v (by omega) (by omega), classifyValue_pos T v h.1 h.2 hP]
  · rw [clampLong_small v (by omega) (by omega), classifyValue_neg T v h.1 h.2 hN]

/-- C3, at the text `-16` and the sample tables: INLINE_NEGATIVE, code 193 + 15. -/
theorem C3_inline_classification_witness :
    simpleMatch sampleTables (intText (-16)) = none ∧
    parseOperand sampleTables (intText (-16)) =
      .ok { op_code := 208, value := -16, op_type := sampleTables.INL_NEG_OP } :=
  ⟨by decide,
    (C3_inline_classification sampleTables (-16) (by decide) (by decide)
      (by decide)).2.2 (by decide)⟩

/-- C4, as stated, fails: the decimal text of `2 ^ 63` classifies as LITERAL, but
the value carried is `2 ^ 63 - 1`, the saturation of `strtol`. -/
theorem C4_counterexample :
    intText 9223372036854775808 = "9223372036854775808".toList ∧
    parseOperand sampleTables "9223372036854775808".toList =
      .ok { op_code := 255, value := 9223372036854775807,
            op_type := sampleTables.LITERAL_OP } ∧
    (9223372036854775807 : Int) ≠ 9223372036854775808 := by
  refine ⟨by decide, rfl, by decide⟩

/-- C4 (amended): for every integer `v` in the range of `long` and outside
`[-16, 64]`, `parseOperand` on the decimal text of `v` (no simple-operand prefix
matching it) returns category LITERAL with the fixed placeholder code, and the
value carried is `v`. -/
theorem C4_literal_value_preserved (T : Tables) (v : Int)
    (hs : simpleMatch T (intText v) = none)
    (hlo : LONG_MIN ≤ v) (hhi : v ≤ LONG_MAX) (hout : v < -16 ∨ 64 < v) :
    parseOperand T (intText v) =
      .ok { op_code := T.LITERAL_OP.op_code, value := v, op_type := T.LITERAL_OP } := by
  rw [parseOperand_intText T v hs, clampLong_of_range v hlo hhi,
    classifyValue_literal T v hout]

/-- C4 (amended), at the text `-17` and the sample tables. -/
theorem C4_literal_value_preserved_witness :
    simpleMatch sampleTables (intText (-17)) = none ∧
    parseOperand sampleTables (intText (-17)) =
      .ok { op_code := 255, value := -17, op_type := sampleTables.LITERAL_OP } :=
  ⟨by decide,
    C4_literal_value_preserved sampleTables (-17) (by decide) (by decide) (by decide)
      (by decide)⟩

/-- C8: register references are classified case-insensitively with range checks:
for `p` in `{s, S}` and every `k` in `[0, 103]`, `parseOperand (p ++ decimal k)` is
category SGPR with code `SGPR base + k`, and for every other `k` it fails with
"invalid SGPR number"; for `p` in `{t, T}` and every `k` in `[0, 11]` it is
category TTMP with code `TTMP base + k`, and for every other `k` it fails with
"invalid TTMP number" (the text matching no simple-operand prefix). -/
theorem C8_register_references (T : Tables) (p : Char) (k : Int)
    (hs : simpleMatch T (p :: intText k) = none)
    (hG : T.SGPR_OP.op_code + 103 < 2 ^ 32)
    (hM : T.TTMP_OP.op_code + 11 < 2 ^ 32) :
    ((p = 's' ∨ p = 'S') →
      (0 ≤ k ∧ k ≤ 103 → parseOperand T (p :: intText k) =
        .ok { op_code := T.SGPR_OP.op_code + k.toNat, value := k, op_type := T.SGPR_OP }) ∧
      (k < 0 ∨ 103 < k → parseOperand T (p :: intText k) =
        .error (.error "invalid SGPR number"))) ∧
    ((p = 't' ∨ p = 'T') →
      (0 ≤ k ∧ k ≤ 11 → parseOperand T (p :: intText k) =
        .ok { op_code := T.TTMP_OP.op_code + k.toNat, value := k, op_type := T.TTMP_OP }) ∧
      (k < 0 ∨ 11 < k → parseOperand T (p :: intText k) =
        .error (.error "invalid TTMP number"))) := by
  exact ⟨fun hp => parseOperand_sgpr_range T p k hp hs hG,
    fun hp => parseOperand_ttmp_range T p k hp hs hM⟩

/-- C8, at the texts `S103` and `T12` and the sample tables. -/
theorem C8_register_references_witness :
    simpleMatch sampleTables ('S' :: intText 103) = none ∧
    parseOperand sampleTables ('S' :: intText 103) =
      .ok { op_code := 103, value := 103, op_type := sampleTables.SGPR_OP } ∧
    simpleMatch sampleTables ('T' :: intText 12) = none ∧
    parseOperand sampleTables ('T' :: intText 12) = .error (.error "invalid TTMP number") :=
  ⟨by decide,
    ((C8_register_references sampleTables 'S' 103 (by decide) (by decide) (by decide)).1
      (Or.inr rfl)).1 (by decide),
    by decide,
    ((C8_register_references sampleTables 'T' 12 (by decide) (by decide) (by decide)).2
      (Or.inr rfl)).2 (by decide)⟩

/-- C6: for every `k` with `0 ≤ k ≤ 103`, a destination field `s<k>` contributes
exactly `(SGPR_base + k) << 16`, OR-ed onto the base opcode: that is the
accumulator after the destination, and the one the two sources are merged into;
for every integer `k` outside `[0, 103]`, encoding fails with "invalid SGPR
number". -/
theorem C6_sgpr_destination (T : Tables) (instr : isa_instr) (k : Int)
    (line : Option (List Char)) (src1 src0 : List Char)
    (hf : sop2Fields line = .ok ('s' :: intText k, src1, src0))
    (hs : simpleMatch T ('s' :: intText k) = none)
    (hreg : T.SGPR_OP.type < T.SDST_OPERAND_TRESHOLD)
    (hB : instr.op_code < 2 ^ 32)
    (hG : T.SGPR_OP.op_code + 103 < 2 ^ 16) :
    (0 ≤ k ∧ k ≤ 103 →
      sop2Dst T instr ('s' :: intText k) =
        .ok { code := instr.op_code ||| (T.SGPR_OP.op_code + k.toNat) <<< 16,
              literal := 0, literal_set := false } ∧
      parseSOP2 T instr line =
        (do let oc ← sop2Src T 8
              { code := instr.op_code ||| (T.SGPR_OP.op_code + k.toNat) <<< 16,
                literal := 0, literal_set := false } src1
            let oc ← sop2Src T 0 oc src0
            pure (sop2Print oc))) ∧
    (k < 0 ∨ 103 < k → parseSOP2 T instr line = .error (.error "invalid SGPR number")) := by
  have h8 := (parseOperand_sgpr_range T 's' k (Or.inl rfl) hs (by omega))
  refine ⟨fun h => ?_, fun h => ?_⟩
  · have hd : sop2Dst T instr ('s' :: intText k) =
        .ok { code := instr.op_code ||| (T.SGPR_OP.op_code + k.toNat) <<< 16,
              literal := 0, literal_set := false } := by
      have hlt : T.SGPR_OP.op_code + k.toNat < 2 ^ 16 := by omega
      rw [sop2Dst_of_ok T instr _ _ (h8.1 h), if_neg (by simpa using hreg),
        u32_of_lt _ hB]
      simp only [u32_of_lt _ (shl16_lt _ hlt)]
    refine ⟨hd, ?_⟩
    rw [parseSOP2_of_fields T instr line _ _ _ hf, hd]
    rfl
  · rw [parseSOP2_of_fields T instr line _ _ _ hf, sop2Dst_of_error T instr _ _ (h8.2 h)]
    rfl

/-- C6, at the operand texts ` s7, s3, 42` and ` s104, s3, 42` and the sample
tables. -/
theorem C6_sgpr_destination_witness :
    sop2Dst sampleTables sampleAdd ('s' :: intText 7) =
      .ok { code := 0x80070000, literal := 0, literal_set := false } ∧
    parseSOP2 sampleTables sampleAdd (some (' ' :: 's' :: intText 104 ++ ", s3, 42".toList)) =
      .error (.error "invalid SGPR number") :=
  ⟨((C6_sgpr_destination sampleTables sampleAdd 7 (some " s7, s3, 42".toList)
      "s3".toList "42".toList rfl (by decide) (by decide) (by decide) (by decide)).1
      (by decide)).1,
    (C6_sgpr_destination sampleTables sampleAdd 104
      (some (' ' :: 's' :: intText 104 ++ ", s3, 42".toList))
      "s3".toList "42".toList rfl (by decide) (by decide) (by decide) (by decide)).2
      (by decide)⟩

/-- C7: the destination check of `parseSOP2` fails with the SDST error exactly
when the category ordinal of the classified destination is at or beyond the
threshold; a destination classified as a constant (ZERO, INLINE_POSITIVE,
INLINE_NEGATIVE, LITERAL) is rejected whatever the two source fields are, and a
destination classified as an SGPR or TTMP register passes the check. -/
theorem C7_destination_check (T : Tables) (hT : T.Consistent) (instr : isa_instr)
    (line : Option (List Char)) (dst src1 src0 : List Char) (op : isa_operand)
    (hf : sop2Fields line = .ok (dst, src1, src0))
    (hop : parseOperand T dst = .ok op) :
    (parseSOP2 T instr line = .error (.error "incorrect value for SDST operand") ↔
      T.SDST_OPERAND_TRESHOLD ≤ op.op_type.type) ∧
    (op.op_type = T.ZERO_OP ∨ op.op_type = T.INL_POS_OP ∨ op.op_type = T.INL_NEG_OP ∨
        op.op_type = T.LITERAL_OP →
      parseSOP2 T instr line = .error (.error "incorrect value for SDST operand")) ∧
    (op.op_type = T.SGPR_OP ∨ op.op_type = T.TTMP_OP →
      sop2Dst T instr dst =
        .ok { code := u32 instr.op_code ||| u32 (op.op_code <<< 16), literal := 0,
              literal_set := false } ∧
      parseSOP2 T instr line ≠ .error (.error "incorrect value for SDST operand")) := by
  have key : parseSOP2 T instr line = .error (.error "incorrect value for SDST operand") ↔
      T.SDST_OPERAND_TRESHOLD ≤ op.op_type.type := by
    rw [parseSOP2_of_fields T instr line _ _ _ hf, sop2Dst_of_ok T instr dst op hop]
    constructor
    · intro h
      by_contra hc
      rw [if_neg hc] at h
      exact sources_ne_sdst T _ src1 src0 h
    · intro h
      rw [if_pos h]
      rfl
  refine ⟨key, fun h => ?_, fun h => ?_⟩
  · apply key.mpr
    rcases h with h | h | h | h <;> rw [h]
    · exact hT.zero_ge
    · exact hT.pos_ge
    · exact hT.neg_ge
    · exact hT.lit_ge
  · have hlt : ¬ T.SDST_OPERAND_TRESHOLD ≤ op.op_type.type := by
      rcases h with h | h <;> rw [h]
      · exact Nat.not_le.mpr hT.sgpr_lt
      · exact Nat.not_le.mpr hT.ttmp_lt
    refine ⟨?_, fun hp => hlt (key.mp hp)⟩
    rw [sop2Dst_of_ok T instr dst op hop, if_neg hlt]

/-- C7, at the operand texts ` -3, s1, s2` of the sample tables: the destination is
an inline constant and is rejected. -/
theorem C7_destination_check_witness :
    parseOperand sampleTables "-3".toList =
      .ok { op_code := 195, value := -3, op_type := sampleTables.INL_NEG_OP } ∧
    parseSOP2 sampleTables sampleAdd (some " -3, s1, s2\n".toList) =
      .error (.error "incorrect value for SDST operand") :=
  ⟨rfl,
    (C7_destination_check sampleTables sampleTables_consistent sampleAdd
      (some " -3, s1, s2\n".toList) "-3".toList "s1".toList "s2".toList
      { op_code := 195, value := -3, op_type := sampleTables.INL_NEG_OP } rfl rfl).2.1
      (Or.inr (Or.inr (Or.inl rfl)))⟩

/-- C5, as stated, fails: with the destination and the first source both LITERAL,
the failure is the SDST error, not the error of the second literal. -/
theorem C5_counterexample :
    sop2Fields (some " 1000, 2000, s1\n".toList) =
      .ok ("1000".toList, "2000".toList, "s1".toList) ∧
    parseOperand sampleTables "1000".toList =
      .ok { op_code := 255, value := 1000, op_type := sampleTables.LITERAL_OP } ∧
    parseOperand sampleTables "2000".toList =
      .ok { op_code := 255, value := 2000, op_type := sampleTables.LITERAL_OP } ∧
    parseSOP2 sampleTables sampleAdd (some " 1000, 2000, s1\n".toList) =
      .error (.error "incorrect value for SDST operand") ∧
    parseSOP2 sampleTables sampleAdd (some " 1000, 2000, s1\n".toList) ≠
      .error (.error "at most one literal constant can be used") := by
  refine ⟨rfl, rfl, rfl, rfl, ?_⟩
  have h : parseSOP2 sampleTables sampleAdd (some " 1000, 2000, s1\n".toList) =
      .error (.error "incorrect value for SDST operand") := rfl
  rw [h]
  simp

/-- C5 (amended): for every SOP2 line whose destination field classifies below
the SDST threshold and whose two source fields both classify as LITERAL,
encoding fails with "at most one literal constant can be used" and prints
nothing, whatever the two literal values are. -/
theorem C5_two_source_literals (T : Tables) (instr : isa_instr)
    (line : Option (List Char)) (dst src1 src0 : List Char) (d o1 o0 : isa_operand)
    (hf : sop2Fields line = .ok (dst, src1, src0))
    (hd : parseOperand T dst = .ok d)
    (hdt : d.op_type.type < T.SDST_OPERAND_TRESHOLD)
    (h1 : parseOperand T src1 = .ok o1) (h1t : o1.op_type.type = T.LITERAL)
    (h0 : parseOperand T src0 = .ok o0) (h0t : o0.op_type.type = T.LITERAL) :
    parseSOP2 T instr line = .error (.error "at most one literal constant can be used") := by
  rw [parseSOP2_of_fields T instr line _ _ _ hf, sop2Dst_of_ok T instr dst d hd,
    if_neg (Nat.not_le.mpr hdt)]
  simp only [bind, Except.bind]
  rw [sop2Src_of_ok T 8 _ src1 o1 h1, if_pos h1t]
  simp only [Bool.false_eq_true, if_false]
  rw [sop2Src_of_ok T 0 _ src0 o0 h0, if_pos h0t]
  simp only [if_true]

/-- C5 (amended), at the operand texts ` s5, 1000, 1000` of the sample tables: two
equal literals. -/
theorem C5_two_source_literals_witness :
    sop2Fields (some " s5, 1000, 1000\n".toList) =
      .ok ("s5".toList, "1000".toList, "1000".toList) ∧
    parseSOP2 sampleTables sampleAdd (some " s5, 1000, 1000\n".toList) =
      .error (.error "at most one literal constant can be used") :=
  ⟨rfl,
    C5_two_source_literals sampleTables sampleAdd (some " s5, 1000, 1000\n".toList)
      "s5".toList "1000".toList "1000".toList
      { op_code := 5, value := 5, op_type := sampleTables.SGPR_OP }
      { op_code := 255, value := 1000, op_type := sampleTables.LITERAL_OP }
      { op_code := 255, value := 1000, op_type := sampleTables.LITERAL_OP }
      rfl rfl (by decide) rfl rfl rfl rfl⟩

/-- C9: for every operand text made of a register prefix (`s`, `S`, `t` or `T`) and
a suffix that the base-10 parse does not consume entirely, matching no
simple-operand prefix, `parseOperand` fails with an operand-parsing error, and
a SOP2 line with such a field among its three operand fields fails without
printing a packed word. -/
theorem C9_malformed_register (T : Tables) (p : Char) (suffix : List Char)
    (hp : p = 's' ∨ p = 'S' ∨ p = 't' ∨ p = 'T')
    (hbad : (strtol suffix 10).2 ≠ [])
    (hs : simpleMatch T (p :: suffix) = none) :
    (p = 's' ∨ p = 'S' →
      parseOperand T (p :: suffix) = .error (.error "parsing operand (SGPR value)")) ∧
    (p = 't' ∨ p = 'T' →
      parseOperand T (p :: suffix) = .error (.error "parsing operand (TTMP value)")) ∧
    ∀ (instr : isa_instr) (line : Option (List Char)) (dst src1 src0 : List Char),
      sop2Fields line = .ok (dst, src1, src0) →
      (dst = p :: suffix ∨ src1 = p :: suffix ∨ src0 = p :: suffix) →
      ∃ f, parseSOP2 T instr line = .error f := by
  have hS : p = 's' ∨ p = 'S' →
      parseOperand T (p :: suffix) = .error (.error "parsing operand (SGPR value)") := by
    intro h
    have h1 : tolower p = 's' := by rcases h with rfl | rfl <;> decide
    simp [parseOperand, hs, h1, hbad]
  have hT : p = 't' ∨ p = 'T' →
      parseOperand T (p :: suffix) = .error (.error "parsing operand (TTMP value)") := by
    intro h
    have h0 : tolower p ≠ 's' := by rcases h with rfl | rfl <;> decide
    have h1 : tolower p = 't' := by rcases h with rfl | rfl <;> decide
    simp [parseOperand, hs, h0, h1, hbad]
  refine ⟨hS, hT, ?_⟩
  intro instr line dst src1 src0 hf hmem
  have hex : ∃ f, parseOperand T (p :: suffix) = .error f := by
    rcases hp with h | h | h | h
    · exact ⟨_, hS (Or.inl h)⟩
    · exact ⟨_, hS (Or.inr h)⟩
    · exact ⟨_, hT (Or.inl h)⟩
    · exact ⟨_, hT (Or.inr h)⟩
  obtain ⟨f, hfail⟩ := hex
  exact parseSOP2_error_of_field T instr line dst src1 src0 (p :: suffix) f hf hfail hmem

/-- C9, at the operand text `sXYZ` of the sample tables. -/
theorem C9_malformed_register_witness :
    (strtol "XYZ".toList 10).2 ≠ [] ∧
    simpleMatch sampleTables "sXYZ".toList = none ∧
    parseOperand sampleTables "sXYZ".toList = .error (.error "parsing operand (SGPR value)") ∧
    ∃ f, parseSOP2 sampleTables sampleAdd (some " s1, sXYZ, 3\n".toList) = .error f :=
  ⟨by decide, by decide,
    (C9_malformed_register sampleTables 's' "XYZ".toList (Or.inl rfl) (by decide)
      (by decide)).1 (Or.inl rfl),
    (C9_malformed_register sampleTables 's' "XYZ".toList (Or.inl rfl) (by decide)
      (by decide)).2.2 sampleAdd (some " s1, sXYZ, 3\n".toList)
      "s1".toList "sXYZ".toList "3".toList rfl (Or.inr (Or.inl rfl))⟩

/-- C10 fails on the code: the operand texts `s`, `t`, `0x` and the empty text have
no digit at all, and `parseOperand` returns an operand with value 0 for each
of them; the line `s_add_u32 s, t, 0x` is encoded as `s_add_u32 s0, t0, 0`. -/
theorem C10_empty_number_accepted :
    parseOperand sampleTables "s".toList =
      .ok { op_code := 0, value := 0, op_type := sampleTables.SGPR_OP } ∧
    parseOperand sampleTables "t".toList =
      .ok { op_code := 112, value := 0, op_type := sampleTables.TTMP_OP } ∧
    parseOperand sampleTables "0x".toList =
      .ok { op_code := 128, value := 0, op_type := sampleTables.ZERO_OP } ∧
    parseOperand sampleTables [] =
      .ok { op_code := 128, value := 0, op_type := sampleTables.ZERO_OP } ∧
    parseLine sampleTables "s_add_u32 s, t, 0x\n".toList =
      ⟨[.label "s_add_u32".toList, .word 0x80007080], none⟩ ∧
    parseLine sampleTables "s_add_u32 s0, t0, 0\n".toList =
      ⟨[.label "s_add_u32".toList, .word 0x80007080], none⟩ :=
  ⟨rfl, rfl, rfl, rfl, rfl, rfl⟩

/-! ## The tokenizer and the driver, in general -/

theorem run_decomp (d s : List Char) :
    ∃ f, (∀ c ∈ f, c ∉ d) ∧ (s = f ∨ ∃ c rest, c ∈ d ∧ s = f ++ c :: rest) := by
  induction s with
  | nil => exact ⟨[], by simp, Or.inl rfl⟩
  | cons a t ih =>
    by_cases ha : a ∈ d
    · exact ⟨[], by simp, Or.inr ⟨a, t, ha, rfl⟩⟩
    · obtain ⟨f, hf, h⟩ := ih
      refine ⟨a :: f, ?_, ?_⟩
      · intro c hc
        rcases List.mem_cons.mp hc with rfl | hc
        · exact ha
        · exact hf c hc
      · rcases h with rfl | ⟨c, rest, hc, rfl⟩
        · exact Or.inl rfl
        · exact Or.inr ⟨c, rest, hc, rfl⟩

/-- The closed form of `getField` on a text with a character that is no
delimiter: delimiters, then the field, then the end of the text or a delimiter
and the new cursor. -/
theorem fieldOf_decomp (d s : List Char) (h : ∃ c ∈ s, c ∉ d) :
    ∃ pre f, (∀ c ∈ pre, c ∈ d) ∧ f ≠ [] ∧ (∀ c ∈ f, c ∉ d) ∧
      ((s = pre ++ f ∧ fieldOf d s = .ok (f, none)) ∨
        ∃ c rest, c ∈ d ∧ s = pre ++ f ++ c :: rest ∧ fieldOf d s = .ok (f, some rest)) := by
  induction s with
  | nil =>
    obtain ⟨c, hc, -⟩ := h
    simp at hc
  | cons a t ih =>
    by_cases ha : a ∈ d
    · have ht : ∃ c ∈ t, c ∉ d := by
        obtain ⟨c, hc, hcd⟩ := h
        rcases List.mem_cons.mp hc with rfl | hc
        · exact absurd ha hcd
        · exact ⟨c, hc, hcd⟩
      obtain ⟨pre, f, hpre, hf, hfd, hcase⟩ := ih ht
      refine ⟨a :: pre, f, ?_, hf, hfd, ?_⟩
      · intro c hc
        rcases List.mem_cons.mp hc with rfl | hc
        · exact ha
        · exact hpre c hc
      · rw [fieldOf_skip d a t ha]
        rcases hcase with ⟨e, hr⟩ | ⟨c, rest, hc, e, hr⟩
        · exact Or.inl ⟨by rw [e]; rfl, hr⟩
        · exact Or.inr ⟨c, rest, hc, by rw [e]; rfl, hr⟩
    · obtain ⟨f, hfd, hcase⟩ := run_decomp d (a :: t)
      have hf : f ≠ [] := by
        rintro rfl
        rcases hcase with e | ⟨c, rest, hc, e⟩
        · simp at e
        · simp only [List.nil_append, List.cons.injEq] at e
          exact ha (e.1 ▸ hc)
      refine ⟨[], f, by simp, hf, hfd, ?_⟩
      rcases hcase with e | ⟨c, rest, hc, e⟩
      · refine Or.inl ⟨by simpa using e, ?_⟩
        rw [e]
        exact fieldOf_last d f hf hfd
      · refine Or.inr ⟨c, rest, hc, by simpa using e, ?_⟩
        rw [e]
        exact fieldOf_token d f c rest hf hfd hc

/-- A text made only of delimiters ends `getField` in `strlen(NULL)`. -/
theorem fieldOf_all_delims (d s : List Char) (h : ∀ c ∈ s, c ∈ d) :
    fieldOf d s = .error .nullDeref := by
  induction s with
  | nil => rfl
  | cons a t ih =>
    rw [fieldOf_skip d a t (h a (List.mem_cons_self _ _))]
    exact ih (fun c hc => h c (List.mem_cons_of_mem _ hc))

/-- The driver after the two calls of `getField`. -/
theorem parseLine_of_token (T : Tables) (line line_strip token : List Char)
    (c1 rest : Option (List Char))
    (h1 : getField (some line) comment_delimiter = .ok (line_strip, c1))
    (h2 : getField (some line_strip) field_delimiter = .ok (token, rest)) :
    parseLine T line =
      match T.isa_instr_list.find? (fun e => e.name == token) with
      | none => ⟨[.unrecognized token], none⟩
      | some instr =>
        if instr.encoding = T.SOP2 then
          match parseSOP2 T instr rest with
          | .ok out => ⟨.label instr.name :: out, none⟩
          | .error f => ⟨[.label instr.name], some f⟩
        else ⟨[.label instr.name, .unsupported instr.name], none⟩ := by
  simp only [parseLine, h1, h2]

/-- C11: for every line whose mnemonic token equals the name of no entry of the
instruction table, `parseLine` reports the unrecognized instruction and prints
nothing else (no label, no packed word, no literal), whatever follows the
token. -/
theorem C11_unrecognized_instruction (T : Tables) (line line_strip token : List Char)
    (c1 rest : Option (List Char))
    (h1 : getField (some line) comment_delimiter = .ok (line_strip, c1))
    (h2 : getField (some line_strip) field_delimiter = .ok (token, rest))
    (hno : ∀ e ∈ T.isa_instr_list, e.name ≠ token) :
    parseLine T line = ⟨[.unrecognized token], none⟩ := by
  have hfind : T.isa_instr_list.find? (fun e => e.name == token) = none := by
    rw [List.find?_eq_none]
    intro e he
    simpa using hno e he
  rw [parseLine_of_token T line line_strip token c1 rest h1 h2, hfind]

/-- C11, at the line `S_ADD_U32 s5, s3, 42` of the sample tables: the match is
case-sensitive. -/
theorem C11_unrecognized_instruction_witness :
    (∀ e ∈ sampleTables.isa_instr_list, e.name ≠ "S_ADD_U32".toList) ∧
    parseLine sampleTables "S_ADD_U32 s5, s3, 42\n".toList =
      ⟨[.unrecognized "S_ADD_U32".toList], none⟩ :=
  ⟨by decide,
    C11_unrecognized_instruction sampleTables "S_ADD_U32 s5, s3, 42\n".toList
      "S_ADD_U32 s5, s3, 42\n".toList "S_ADD_U32".toList none
      (some "s5, s3, 42\n".toList) rfl rfl (by decide)⟩

/-- C16: for every line whose mnemonic resolves to a table entry of another
family than SOP2, `parseLine` prints the label and the report of the
unsupported encoding type, and no packed word or literal, whatever the
operand fields are; `parseSOP2` is not called. -/
theorem C16_unsupported_encoding (T : Tables) (instr : isa_instr)
    (line line_strip token : List Char) (c1 rest : Option (List Char))
    (h1 : getField (some line) comment_delimiter = .ok (line_strip, c1))
    (h2 : getField (some line_strip) field_delimiter = .ok (token, rest))
    (hfind : T.isa_instr_list.find? (fun e => e.name == token) = some instr)
    (henc : instr.encoding ≠ T.SOP2) :
    parseLine T line = ⟨[.label instr.name, .unsupported instr.name], none⟩ ∧
    (∀ w, Event.word w ∉ (parseLine T line).printed) ∧
    (∀ w, Event.literal w ∉ (parseLine T line).printed) := by
  have h : parseLine T line = ⟨[.label instr.name, .unsupported instr.name], none⟩ := by
    rw [parseLine_of_token T line line_strip token c1 rest h1 h2, hfind]
    simp only [if_neg henc]
  refine ⟨h, ?_, ?_⟩ <;> intro w <;> rw [h] <;> simp

/-- C16, at the line `s_mov_b32 s1, s2` of the sample tables. -/
theorem C16_unsupported_encoding_witness :
    parseLine sampleTables "s_mov_b32 s1, s2\n".toList =
      ⟨[.label "s_mov_b32".toList, .unsupported "s_mov_b32".toList], none⟩ :=
  (C16_unsupported_encoding sampleTables
    { name := "s_mov_b32".toList, encoding := 1, op_code := 0xbe800300 }
    "s_mov_b32 s1, s2\n".toList "s_mov_b32 s1, s2\n".toList "s_mov_b32".toList none
    (some "s1, s2\n".toList) rfl rfl rfl (by decide)).1

/-- C12 fails on the code: the comment is cut off with `getField`, which skips
empty fields, so on a line that starts with `;` the text passed on is the
text after the `;` (up to the next one), not the empty text before it; the
commented-out line `;s_add_u32 s5, s3, 42` is encoded like the line without
the `;`. -/
theorem C12_leading_comment_parsed :
    getField (some ";s_add_u32 s5, s3, 42\n".toList) comment_delimiter =
      .ok ("s_add_u32 s5, s3, 42\n".toList, none) ∧
    parseLine sampleTables ";s_add_u32 s5, s3, 42\n".toList =
      ⟨[.label "s_add_u32".toList, .word 0x800503aa], none⟩ ∧
    parseLine sampleTables "s_add_u32 s5, s3, 42\n".toList =
      ⟨[.label "s_add_u32".toList, .word 0x800503aa], none⟩ ∧
    getField (some "; a comment ; more\n".toList) comment_delimiter =
      .ok (" a comment ".toList, some " more\n".toList) ∧
    parseLine sampleTables "; a comment ; more\n".toList =
      ⟨[.unrecognized "a".toList], none⟩ :=
  ⟨rfl, rfl, rfl, rfl, rfl⟩

/-- C13: for every text with at least one character that is no delimiter,
`getField` returns the first maximal run of such characters: the text is some
delimiters `pre`, then the field `f` (not empty, without a delimiter), then
either the end of the text, and the cursor is exhausted, or one delimiter and
the text `rest`, and the cursor is `rest`. -/
theorem C13_getField_first_field (d s : List Char) (h : ∃ c ∈ s, c ∉ d) :
    ∃ pre f, (∀ c ∈ pre, c ∈ d) ∧ f ≠ [] ∧ (∀ c ∈ f, c ∉ d) ∧
      ((s = pre ++ f ∧ getField (some s) d = .ok (f, none)) ∨
        ∃ c rest, c ∈ d ∧ s = pre ++ f ++ c :: rest ∧
          getField (some s) d = .ok (f, some rest)) := by
  rw [getField_some]
  exact fieldOf_decomp d s h

/-- C13, at the text `, \ts1,, s2` and the field delimiters: three empty fields are
skipped, the field is `s1`, the cursor is `, s2`. -/
theorem C13_getField_first_field_witness :
    (∃ c ∈ ", \ts1,, s2".toList, c ∉ field_delimiter) ∧
    getField (some ", \ts1,, s2".toList) field_delimiter =
      .ok ("s1".toList, some ", s2".toList) ∧
    ∃ pre f, (∀ c ∈ pre, c ∈ field_delimiter) ∧ f ≠ [] ∧ (∀ c ∈ f, c ∉ field_delimiter) ∧
      ((", \ts1,, s2".toList = pre ++ f ∧
          getField (some ", \ts1,, s2".toList) field_delimiter = .ok (f, none)) ∨
        ∃ c rest, c ∈ field_delimiter ∧ ", \ts1,, s2".toList = pre ++ f ++ c :: rest ∧
          getField (some ", \ts1,, s2".toList) field_delimiter = .ok (f, some rest)) :=
  ⟨by decide, rfl,
    C13_getField_first_field field_delimiter ", \ts1,, s2".toList (by decide)⟩

/-- C14 fails on the code: when no field is left, `getField` does not report the
end of the text, it passes the `NULL` that `strsep` returns to `strlen`: so on
an exhausted cursor, on the empty text and on a text of delimiters only, and so
`parseSOP2` on a line with two operand fields only. -/
theorem C14_exhausted_cursor_dereferenced :
    getField none field_delimiter = .error .nullDeref ∧
    getField (some []) field_delimiter = .error .nullDeref ∧
    getField (some ", \t ,".toList) field_delimiter = .error .nullDeref ∧
    sop2Fields (some "s1, s2\n".toList) = .error .nullDeref ∧
    parseSOP2 sampleTables sampleAdd (some "s1, s2\n".toList) = .error .nullDeref ∧
    parseLine sampleTables "s_add_u32 s1, s2\n".toList =
      ⟨[.label "s_add_u32".toList], some .nullDeref⟩ :=
  ⟨rfl, rfl, rfl, rfl, rfl, rfl⟩

/-- The first entry of a list that satisfies a test, with what comes before it. -/
theorem simpleMatch_first (T : Tables) (s : List Char)
    (h : ∃ e ∈ T.isa_simple_operand_list, e.name <+: s) :
    ∃ pre e post, T.isa_simple_operand_list = pre ++ e :: post ∧
      (∀ x ∈ pre, ¬ x.name <+: s) ∧ e.name <+: s ∧ simpleMatch T s = some e := by
  cases hm : simpleMatch T s with
  | none =>
    exfalso
    obtain ⟨e, he, hp⟩ := h
    unfold simpleMatch at hm
    rw [List.find?_eq_none] at hm
    exact hm e he (by simpa using hp)
  | some e =>
    unfold simpleMatch at hm
    obtain ⟨hp, pre, post, hl, hpre⟩ := List.find?_eq_some.mp hm
    refine ⟨pre, e, post, hl, ?_, by simpa using hp, rfl⟩
    intro x hx hpx
    have h1 := hpre x hx
    have h2 : x.name.isPrefixOf s = true := by simpa using hpx
    rw [h2] at h1
    simp at h1

/-- C15: simple-operand matching has strict priority and the first match wins: for
every operand text of which some table entry's name is a prefix,
`parseOperand` succeeds with the code and the category of the first such entry
in table order (no entry before it matches), whatever follows the prefix and
whatever the first character is; neither the register branches nor `strtol`
have a say. -/
theorem C15_simple_operand_first_match (T : Tables) (s : List Char)
    (h : ∃ e ∈ T.isa_simple_operand_list, e.name <+: s) :
    ∃ pre e post, T.isa_simple_operand_list = pre ++ e :: post ∧
      (∀ x ∈ pre, ¬ x.name <+: s) ∧ e.name <+: s ∧
      ∃ op, parseOperand T s = .ok op ∧ op.op_code = e.op_code ∧ op.op_type = e := by
  obtain ⟨pre, e, post, hl, hpre, hp, hm⟩ := simpleMatch_first T s h
  refine ⟨pre, e, post, hl, hpre, hp, ⟨{ op_code := e.op_code, value := 0, op_type := e }, ?_, rfl, rfl⟩⟩
  simp only [parseOperand, hm]

/-- C15, at the texts `exec_hi` and `scc1` of a table with the entries `scc`, `exec`,
`exec_lo`, `exec_hi` in this order: `exec` wins over `exec_hi`, and `scc1` is
no register reference. -/
theorem C15_simple_operand_first_match_witness :
    (∃ e ∈ prefixTables.isa_simple_operand_list, e.name <+: "exec_hi".toList) ∧
    parseOperand prefixTables "exec_hi".toList =
      .ok { op_code := 126, value := 0,
            op_type := { name := "exec".toList, op_code := 126, type := 0 } } ∧
    parseOperand prefixTables "scc1".toList =
      .ok { op_code := 253, value := 0,
            op_type := { name := "scc".toList, op_code := 253, type := 0 } } ∧
    ∃ pre e post, prefixTables.isa_simple_operand_list = pre ++ e :: post ∧
      (∀ x ∈ pre, ¬ x.name <+: "exec_hi".toList) ∧ e.name <+: "exec_hi".toList ∧
      ∃ op, parseOperand prefixTables "exec_hi".toList = .ok op ∧
        op.op_code = e.op_code ∧ op.op_type = e :=
  ⟨by decide, rfl, rfl,
    C15_simple_operand_first_match prefixTables "exec_hi".toList (by decide)⟩

theorem error_bind_ne_ok {ε α β : Type} (e : ε) (f : α → Except ε β) (b : β) :
    ((Except.error e : Except ε α) >>= f) ≠ .ok b := by
  intro h
  cases h

/-- A successful run of `parseSOP2`, operand by operand. -/
theorem parseSOP2_ok_inv (T : Tables) (instr : isa_instr) (line : Option (List Char))
    (dst src1 src0 : List Char) (out : List Event)
    (hf : sop2Fields line = .ok (dst, src1, src0))
    (hok : parseSOP2 T instr line = .ok out) :
    ∃ d o1 o0, parseOperand T dst = .ok d ∧ parseOperand T src1 = .ok o1 ∧
      parseOperand T src0 = .ok o0 ∧ d.op_type.type < T.SDST_OPERAND_TRESHOLD ∧
      ((o1.op_type.type = T.LITERAL ∧ o0.op_type.type ≠ T.LITERAL ∧
          out = [.word (u32 instr.op_code ||| u32 (d.op_code <<< 16) |||
            u32 (o1.op_code <<< 8) ||| u32 (o0.op_code <<< 0)),
            .literal (toU32 o1.value)]) ∨
        (o1.op_type.type ≠ T.LITERAL ∧ o0.op_type.type = T.LITERAL ∧
          out = [.word (u32 instr.op_code ||| u32 (d.op_code <<< 16) |||
            u32 (o1.op_code <<< 8) ||| u32 (o0.op_code <<< 0)),
            .literal (toU32 o0.value)]) ∨
        (o1.op_type.type ≠ T.LITERAL ∧ o0.op_type.type ≠ T.LITERAL ∧
          out = [.word (u32 instr.op_code ||| u32 (d.op_code <<< 16) |||
            u32 (o1.op_code <<< 8) ||| u32 (o0.op_code <<< 0))])) := by
  rw [parseSOP2_of_fields T instr line _ _ _ hf] at hok
  cases hd : parseOperand T dst with
  | error f =>
    rw [sop2Dst_of_error T instr dst f hd] at hok
    exact absurd hok (error_bind_ne_ok _ _ _)
  | ok d =>
    rw [sop2Dst_of_ok T instr dst d hd] at hok
    by_cases hthr : T.SDST_OPERAND_TRESHOLD ≤ d.op_type.type
    · rw [if_pos hthr] at hok
      exact absurd hok (error_bind_ne_ok _ _ _)
    · rw [if_neg hthr] at hok
      simp only [bind, Except.bind] at hok
      cases h1 : parseOperand T src1 with
      | error f =>
        rw [sop2Src_of_error T 8 _ src1 f h1] at hok
        cases hok
      | ok o1 =>
        rw [sop2Src_of_ok T 8 _ src1 o1 h1] at hok
        cases h0 : parseOperand T src0 with
        | error f =>
          by_cases hl1 : o1.op_type.type = T.LITERAL
          · simp only [hl1, if_true, Bool.false_eq_true, if_false] at hok
            rw [sop2Src_of_error T 0 _ src0 f h0] at hok
            cases hok
          · simp only [hl1, if_false] at hok
            rw [sop2Src_of_error T 0 _ src0 f h0] at hok
            cases hok
        | ok o0 =>
          refine ⟨d, o1, o0, rfl, rfl, rfl, Nat.lt_of_not_le hthr, ?_⟩
          by_cases hl1 : o1.op_type.type = T.LITERAL
          · simp only [hl1, if_true, Bool.false_eq_true, if_false] at hok
            rw [sop2Src_of_ok T 0 _ src0 o0 h0] at hok
            by_cases hl0 : o0.op_type.type = T.LITERAL
            · simp only [hl0, if_true] at hok
              cases hok
            · simp only [hl0, if_false, pure, Except.pure, sop2Print, if_true,
                Except.ok.injEq] at hok
              exact Or.inl ⟨hl1, hl0, hok.symm⟩
          · simp only [hl1, if_false] at hok
            rw [sop2Src_of_ok T 0 _ src0 o0 h0] at hok
            by_cases hl0 : o0.op_type.type = T.LITERAL
            · simp only [hl0, if_true, Bool.false_eq_true, if_false, pure, Except.pure,
                sop2Print, Except.ok.injEq] at hok
              exact Or.inr (Or.inl ⟨hl1, hl0, hok.symm⟩)
            · simp only [hl0, if_false, pure, Except.pure, sop2Print, Bool.false_eq_true,
                Except.ok.injEq] at hok
              exact Or.inr (Or.inr ⟨hl1, hl0, hok.symm⟩)

theorem simpleMatch_none_of_literal (T : Tables)
    (hsimple : ∀ e ∈ T.isa_simple_operand_list, e.type ≠ T.LITERAL)
    (src : List Char) (op : isa_operand) (h : parseOperand T src = .ok op)
    (hl : op.op_type.type = T.LITERAL) : simpleMatch T src = none := by
  cases hm : simpleMatch T src with
  | none => rfl
  | some e =>
    exfalso
    simp only [parseOperand, hm, Except.ok.injEq] at h
    have he : e ∈ T.isa_simple_operand_list := by
      unfold simpleMatch at hm
      exact List.mem_of_find?_eq_some hm
    rw [← h] at hl
    exact hsimple e he hl

theorem or_eq_add (i x y : Nat) (hx : x % 2 ^ i = 0) (hy : y < 2 ^ i) : x ||| y = x + y := by
  obtain ⟨k, rfl⟩ : ∃ k, x = 2 ^ i * k := Nat.dvd_of_mod_eq_zero hx
  exact (Nat.mul_add_lt_is_or hy k).symm

/-- The packed word as a sum, when the opcode and the three codes fit their
fields. -/
theorem packed_word_eq (B d a c : Nat) (hB23 : B % 2 ^ 23 = 0) (hB : B < 2 ^ 32)
    (hd : d < 2 ^ 7) (ha : a < 2 ^ 8) (hc : c < 2 ^ 8) :
    u32 B ||| u32 (d <<< 16) ||| u32 (a <<< 8) ||| u32 (c <<< 0) =
      B + d * 2 ^ 16 + a * 2 ^ 8 + c := by
  have e1 : u32 B = B := u32_of_lt _ hB
  have e2 : u32 (d <<< 16) = d * 2 ^ 16 := by
    rw [Nat.shiftLeft_eq]
    exact u32_of_lt _ (by omega)
  have e3 : u32 (a <<< 8) = a * 2 ^ 8 := by
    rw [Nat.shiftLeft_eq]
    exact u32_of_lt _ (by omega)
  have e4 : u32 (c <<< 0) = c := by
    rw [Nat.shiftLeft_zero]
    exact u32_of_lt _ (by omega)
  rw [e1, e2, e3, e4, or_eq_add 23 B (d * 2 ^ 16) hB23 (by omega),
    or_eq_add 16 (B + d * 2 ^ 16) (a * 2 ^ 8) (by omega) (by omega),
    or_eq_add 8 (B + d * 2 ^ 16 + a * 2 ^ 8) c (by omega) hc]

/-- C17: for every successful SOP2 encoding, a literal is printed if and only if
exactly one of the two source operands is classified LITERAL, and it is the
value of that operand as a 32-bit word (an operand that did not come from the
simple-operand table, no entry of it being tagged LITERAL); with no LITERAL
source the packed word alone is printed; the packed word is the same
combination of the three codes in all cases, the destination leaves the
literal unset, and `setLiteralOperand` leaves the packed word unchanged. -/
theorem C17_literal_emission (T : Tables) (instr : isa_instr) (line : Option (List Char))
    (dst src1 src0 : List Char) (out : List Event)
    (hsimple : ∀ e ∈ T.isa_simple_operand_list, e.type ≠ T.LITERAL)
    (hf : sop2Fields line = .ok (dst, src1, src0))
    (hok : parseSOP2 T instr line = .ok out) :
    (∃ d o1 o0, parseOperand T dst = .ok d ∧ parseOperand T src1 = .ok o1 ∧
      parseOperand T src0 = .ok o0 ∧
      ((o1.op_type.type = T.LITERAL ∧ o0.op_type.type ≠ T.LITERAL ∧
          simpleMatch T src1 = none ∧
          out = [.word (u32 instr.op_code ||| u32 (d.op_code <<< 16) |||
            u32 (o1.op_code <<< 8) ||| u32 (o0.op_code <<< 0)),
            .literal (toU32 o1.value)]) ∨
        (o1.op_type.type ≠ T.LITERAL ∧ o0.op_type.type = T.LITERAL ∧
          simpleMatch T src0 = none ∧
          out = [.word (u32 instr.op_code ||| u32 (d.op_code <<< 16) |||
            u32 (o1.op_code <<< 8) ||| u32 (o0.op_code <<< 0)),
            .literal (toU32 o0.value)]) ∨
        (o1.op_type.type ≠ T.LITERAL ∧ o0.op_type.type ≠ T.LITERAL ∧
          out = [.word (u32 instr.op_code ||| u32 (d.op_code <<< 16) |||
            u32 (o1.op_code <<< 8) ||| u32 (o0.op_code <<< 0))]))) ∧
    (∀ oc, sop2Dst T instr dst = .ok oc → oc.literal_set = false) ∧
    (∀ oc op oc2, setLiteralOperand oc op = .ok oc2 →
      oc2.code = oc.code ∧ oc2.literal = toU32 op.value ∧ oc2.literal_set = true) := by
  obtain ⟨d, o1, o0, hd, h1, h0, -, hcase⟩ :=
    parseSOP2_ok_inv T instr line dst src1 src0 out hf hok
  refine ⟨⟨d, o1, o0, hd, h1, h0, ?_⟩, ?_, ?_⟩
  · rcases hcase with ⟨hl1, hl0, ho⟩ | ⟨hl1, hl0, ho⟩ | ⟨hl1, hl0, ho⟩
    · exact Or.inl ⟨hl1, hl0, simpleMatch_none_of_literal T hsimple src1 o1 h1 hl1, ho⟩
    · exact Or.inr (Or.inl
        ⟨hl1, hl0, simpleMatch_none_of_literal T hsimple src0 o0 h0 hl0, ho⟩)
    · exact Or.inr (Or.inr ⟨hl1, hl0, ho⟩)
  · intro oc hoc
    rw [sop2Dst_of_ok T instr dst d hd] at hoc
    split at hoc
    · cases hoc
    · cases hoc
      rfl
  · intro oc op oc2 h
    unfold setLiteralOperand at h
    split at h
    · cases h
    · cases h
      exact ⟨rfl, rfl, rfl⟩

/-- C17, at the operand texts ` s5, 1000, s3` of the sample tables: the first
source is the literal. -/
theorem C17_literal_emission_witness :
    parseSOP2 sampleTables sampleAdd (some " s5, 1000, s3\n".toList) =
      .ok [.word 0x8005ff03, .literal 1000] ∧
    ∃ d o1 o0, parseOperand sampleTables "s5".toList = .ok d ∧
      parseOperand sampleTables "1000".toList = .ok o1 ∧
      parseOperand sampleTables "s3".toList = .ok o0 ∧
      ((o1.op_type.type = sampleTables.LITERAL ∧ o0.op_type.type ≠ sampleTables.LITERAL ∧
          simpleMatch sampleTables "1000".toList = none ∧
          [Event.word 0x8005ff03, Event.literal 1000] =
            [.word (u32 sampleAdd.op_code ||| u32 (d.op_code <<< 16) |||
              u32 (o1.op_code <<< 8) ||| u32 (o0.op_code <<< 0)),
              .literal (toU32 o1.value)]) ∨
        (o1.op_type.type ≠ sampleTables.LITERAL ∧ o0.op_type.type = sampleTables.LITERAL ∧
          simpleMatch sampleTables "s3".toList = none ∧
          [Event.word 0x8005ff03, Event.literal 1000] =
            [.word (u32 sampleAdd.op_code ||| u32 (d.op_code <<< 16) |||
              u32 (o1.op_code <<< 8) ||| u32 (o0.op_code <<< 0)),
              .literal (toU32 o0.value)]) ∨
        (o1.op_type.type ≠ sampleTables.LITERAL ∧ o0.op_type.type ≠ sampleTables.LITERAL ∧
          [Event.word 0x8005ff03, Event.literal 1000] =
            [.word (u32 sampleAdd.op_code ||| u32 (d.op_code <<< 16) |||
              u32 (o1.op_code <<< 8) ||| u32 (o0.op_code <<< 0))])) :=
  ⟨rfl,
    (C17_literal_emission sampleTables sampleAdd (some " s5, 1000, s3\n".toList)
      "s5".toList "1000".toList "s3".toList [.word 0x8005ff03, .literal 1000]
      (by decide) rfl rfl).1⟩

/-- C18: for every successful SOP2 encoding in which the base opcode is a 32-bit
word with its low 23 bits clear, the destination code is below `2^7` and both
source codes are below `2^8`, the fields are read back from the packed word
`w`: `w & 0xFF` is the code of the second source (SSRC0), `(w >> 8) & 0xFF`
the code of the first source (SSRC1), `(w >> 16) & 0x7F` the code of the
destination (SDST), and `w >> 23` is `base_opcode >> 23`. -/
theorem C18_bit_fields (T : Tables) (instr : isa_instr) (line : Option (List Char))
    (dst src1 src0 : List Char) (out : List Event) (d o1 o0 : isa_operand)
    (hf : sop2Fields line = .ok (dst, src1, src0))
    (hok : parseSOP2 T instr line = .ok out)
    (hd : parseOperand T dst = .ok d)
    (h1 : parseOperand T src1 = .ok o1)
    (h0 : parseOperand T src0 = .ok o0)
    (hB23 : instr.op_code % 2 ^ 23 = 0) (hB : instr.op_code < 2 ^ 32)
    (hdc : d.op_code < 2 ^ 7) (h1c : o1.op_code < 2 ^ 8) (h0c : o0.op_code < 2 ^ 8) :
    ∃ w rest, out = .word w :: rest ∧
      w &&& 0xFF = o0.op_code ∧
      (w >>> 8) &&& 0xFF = o1.op_code ∧
      (w >>> 16) &&& 0x7F = d.op_code ∧
      w >>> 23 = instr.op_code >>> 23 := by
  obtain ⟨d2, p1, p0, hd2, hp1, hp0, -, hcase⟩ :=
    parseSOP2_ok_inv T instr line dst src1 src0 out hf hok
  rw [hd] at hd2
  rw [h1] at hp1
  rw [h0] at hp0
  cases hd2
  cases hp1
  cases hp0
  have hw := packed_word_eq instr.op_code d.op_code o1.op_code o0.op_code hB23 hB hdc h1c h0c
  have key : ∀ w, w = instr.op_code + d.op_code * 2 ^ 16 + o1.op_code * 2 ^ 8 + o0.op_code →
      w &&& 0xFF = o0.op_code ∧ (w >>> 8) &&& 0xFF = o1.op_code ∧
      (w >>> 16) &&& 0x7F = d.op_code ∧ w >>> 23 = instr.op_code >>> 23 := by
    intro w e
    have a1 : ∀ x, x &&& 0xFF = x % 2 ^ 8 := fun x => Nat.and_pow_two_sub_one_eq_mod x 8
    have a2 : ∀ x, x &&& 0x7F = x % 2 ^ 7 := fun x => Nat.and_pow_two_sub_one_eq_mod x 7
    simp only [a1, a2, Nat.shiftRight_eq_div_pow]
    subst e
    refine ⟨by omega, by omega, by omega, by omega⟩
  rcases hcase with ⟨-, -, ho⟩ | ⟨-, -, ho⟩ | ⟨-, -, ho⟩
  · exact ⟨_, _, ho, key _ hw⟩
  · exact ⟨_, _, ho, key _ hw⟩
  · exact ⟨_, _, ho, key _ hw⟩

/-- C18, at the operand texts ` s5, s3, 42` of the sample tables: the word
`0x800503aa` gives back 170, 3 and 5. -/
theorem C18_bit_fields_witness :
    parseSOP2 sampleTables sampleAdd (some " s5, s3, 42\n".toList) =
      .ok [.word 0x800503aa] ∧
    ∃ w rest, [Event.word 0x800503aa] = .word w :: rest ∧
      w &&& 0xFF = 170 ∧ (w >>> 8) &&& 0xFF = 3 ∧ (w >>> 16) &&& 0x7F = 5 ∧
      w >>> 23 = 0x80000000 >>> 23 :=
  ⟨rfl,
    C18_bit_fields sampleTables sampleAdd (some " s5, s3, 42\n".toList)
      "s5".toList "s3".toList "42".toList [.word 0x800503aa]
      { op_code := 5, value := 5, op_type := sampleTables.SGPR_OP }
      { op_code := 3, value := 3, op_type := sampleTables.SGPR_OP }
      { op_code := 170, value := 42, op_type := sampleTables.INL_POS_OP }
      rfl rfl rfl rfl rfl (by decide) (by decide) (by decide) (by decide) (by decide)⟩

/-! ## Hexadecimal texts -/

theorem isHex_hexDigitChar (d : Nat) (h : d < 16) : IsHex (hexDigitChar d) := by
  interval_cases d <;> (unfold IsHex; decide)

theorem digitVal_hexDigitChar (d : Nat) (h : d < 16) : digitVal (hexDigitChar d) = some d := by
  interval_cases d <;> rfl

theorem isDigitIn_hexDigitChar (d : Nat) (h : d < 16) :
    isDigitIn 16 (hexDigitChar d) = true := by
  interval_cases d <;> rfl

theorem isHex_isDigitIn {c : Char} (h : IsHex c) : isDigitIn 16 c = true := by
  unfold IsHex at h
  unfold Gcnasm.isDigitIn digitVal
  rcases h with h | h
  · rw [if_pos h]
    simp only [decide_eq_true_eq]
    omega
  · rw [if_neg (by omega), if_pos (by omega)]
    simp only [decide_eq_true_eq]
    omega

theorem isHex_not_isspace {c : Char} (h : IsHex c) : isspace c = false := by
  unfold IsHex at h
  unfold isspace
  simp only [Bool.or_eq_false_iff, decide_eq_false_iff_not, Bool.and_eq_false_imp,
    decide_eq_true_eq]
  omega

theorem isHex_ne_of_toNat {c : Char} (h : IsHex c) (x : Char)
    (hx : x.toNat < 48 ∨ (57 < x.toNat ∧ x.toNat < 97) ∨ 102 < x.toNat) : c ≠ x := by
  intro e
  subst e
  unfold IsHex at h
  omega

theorem hexTextAux_all (fuel n : Nat) (acc : List Char) (hacc : ∀ c ∈ acc, IsHex c) :
    ∀ c ∈ hexTextAux fuel n acc, IsHex c := by
  induction fuel generalizing n acc with
  | zero => simpa [hexTextAux] using hacc
  | succ fuel ih =>
    unfold hexTextAux
    split
    · intro c hc
      rcases List.mem_cons.mp hc with rfl | hc
      · exact isHex_hexDigitChar n (by omega)
      · exact hacc c hc
    · apply ih
      intro c hc
      rcases List.mem_cons.mp hc with rfl | hc
      · exact isHex_hexDigitChar _ (Nat.mod_lt _ (by decide))
      · exact hacc c hc

theorem hexText_all (n : Nat) : ∀ c ∈ hexText n, IsHex c :=
  hexTextAux_all (n + 1) n [] (by simp)

theorem hexTextAux_ne_nil (fuel n : Nat) (acc : List Char) (h : n < fuel) :
    hexTextAux fuel n acc ≠ [] := by
  induction fuel generalizing n acc with
  | zero => omega
  | succ fuel ih =>
    unfold hexTextAux
    split
    · simp
    · apply ih
      omega

theorem hexText_ne_nil (n : Nat) : hexText n ≠ [] :=
  hexTextAux_ne_nil (n + 1) n [] (by omega)

theorem scanDigits_hexTextAux (fuel n : Nat) (acc : List Char) (h : n < fuel) :
    ∃ k, ∀ a, scanDigits 16 (hexTextAux fuel n acc) a = scanDigits 16 acc (a * 16 ^ k + n) := by
  induction fuel generalizing n acc with
  | zero => omega
  | succ fuel ih =>
    unfold hexTextAux
    split
    · rename_i hn
      refine ⟨1, fun a => ?_⟩
      simp [scanDigits, isDigitIn_hexDigitChar n hn, digitVal_hexDigitChar n hn]
    · rename_i hn
      obtain ⟨k, hk⟩ := ih (n / 16) (hexDigitChar (n % 16) :: acc) (by omega)
      refine ⟨k + 1, fun a => ?_⟩
      have hm : n % 16 < 16 := Nat.mod_lt _ (by decide)
      rw [hk a]
      simp only [scanDigits, isDigitIn_hexDigitChar _ hm, digitVal_hexDigitChar _ hm, if_true,
        Option.getD_some]
      congr 1
      rw [pow_succ]
      have := Nat.div_add_mod n 16
      nlinarith [this]

theorem scanDigits_hexText (n : Nat) : scanDigits 16 (hexText n) 0 = (n, []) := by
  obtain ⟨k, hk⟩ := scanDigits_hexTextAux (n + 1) n [] (by omega)
  rw [hexText, hk 0]
  simp [scanDigits]

theorem takeHexPrefix_of_isHex (s : List Char) (h : ∀ c ∈ s, IsHex c) :
    takeHexPrefix 16 s = s := by
  unfold takeHexPrefix
  split
  · rename_i z x hd r
    have hx : IsHex x := h x (by simp)
    have h1 : x ≠ 'x' := isHex_ne_of_toNat hx _ (by decide)
    have h2 : x ≠ 'X' := isHex_ne_of_toNat hx _ (by decide)
    simp [h1, h2]
  · rfl

theorem strtol_hexText (n : Nat) : strtol (hexText n) 16 = (clampLong n, []) := by
  have hne := hexText_ne_nil n
  have hall := hexText_all n
  have hscan := scanDigits_hexText n
  have hpre := takeHexPrefix_of_isHex (hexText n) hall
  cases hs : hexText n with
  | nil => exact absurd hs hne
  | cons c r =>
    rw [hs] at hall hscan hpre
    have hc : IsHex c := hall c (List.mem_cons_self _ _)
    have h1 : c ≠ '-' := isHex_ne_of_toNat hc _ (by decide)
    have h2 : c ≠ '+' := isHex_ne_of_toNat hc _ (by decide)
    simp [strtol, List.dropWhile, isHex_not_isspace hc, takeSign, h1, h2, hpre, isHex_isDigitIn hc, hscan]

/-- The numeric branch of `parseOperand` on `0x` and the hexadecimal digits of a
number. -/
theorem parseOperand_hexText (T : Tables) (n : Nat)
    (hs : simpleMatch T ('0' :: 'x' :: hexText n) = none) :
    parseOperand T ('0' :: 'x' :: hexText n) = .ok (classifyValue T (clampLong n)) := by
  have h1 : tolower (('0' :: 'x' :: hexText n).headD (Char.ofNat 0)) ≠ 's' := by
    rw [List.headD_cons]
    decide
  have h2 : tolower (('0' :: 'x' :: hexText n).headD (Char.ofNat 0)) ≠ 't' := by
    rw [List.headD_cons]
    decide
  have h3 : ['0', 'x'].isPrefixOf ('0' :: 'x' :: hexText n) = true := by
    simp [List.isPrefixOf]
  unfold parseOperand
  rw [hs]
  simp only [if_neg h1, if_neg h2, h3, if_true, List.drop_succ_cons, List.drop_zero,
    strtol_hexText]
  simp

/-- C19: hexadecimal and decimal texts of the same number classify identically:
for every `n` below `2^32`, `parseOperand` on `0x` followed by the hexadecimal
digits of `n` returns the same operand (category, code and value) as on the
decimal text of `n`, the operand of the value `n`, neither text matching a
simple-operand prefix. -/
theorem C19_hex_decimal_agree (T : Tables) (n : Nat) (hn : n < 2 ^ 32)
    (hsx : simpleMatch T ('0' :: 'x' :: hexText n) = none)
    (hsd : simpleMatch T (natText n) = none) :
    parseOperand T ('0' :: 'x' :: hexText n) = parseOperand T (natText n) ∧
    parseOperand T (natText n) = .ok (classifyValue T n) := by
  have e : clampLong (n : Int) = n := clampLong_small _ (by omega) (by omega)
  rw [← intText_natCast n] at hsd ⊢
  rw [parseOperand_hexText T n hsx, parseOperand_intText T n hsd, e]
  exact ⟨rfl, rfl⟩

/-- C19, at the texts `0x10`, `0x0` and `0x3e8` of the sample tables. -/
theorem C19_hex_decimal_agree_witness :
    '0' :: 'x' :: hexText 16 = "0x10".toList ∧
    '0' :: 'x' :: hexText 1000 = "0x3e8".toList ∧
    parseOperand sampleTables "0x10".toList =
      .ok { op_code := 129 + 15, value := 16, op_type := sampleTables.INL_POS_OP } ∧
    parseOperand sampleTables "0x0".toList =
      .ok { op_code := 128, value := 0, op_type := sampleTables.ZERO_OP } ∧
    parseOperand sampleTables "0x3e8".toList =
      .ok { op_code := 255, value := 1000, op_type := sampleTables.LITERAL_OP } ∧
    parseOperand sampleTables "0x3e8".toList = parseOperand sampleTables "1000".toList :=
  ⟨by decide, by decide, rfl, rfl, rfl,
    (C19_hex_decimal_agree sampleTables 1000 (by decide) (by decide) (by decide)).1⟩

/-! ## A newline at the end of the operand text -/

theorem fieldOf_skip_all (d pre x : List Char) (h : ∀ c ∈ pre, c ∈ d) :
    fieldOf d (pre ++ x) = fieldOf d x := by
  induction pre with
  | nil => rfl
  | cons a t ih =>
    rw [List.cons_append, fieldOf_skip d a _ (h a (List.mem_cons_self _ _))]
    exact ih (fun c hc => h c (List.mem_cons_of_mem _ hc))

/-- What a successful `getField` says about the text. -/
theorem fieldOf_ok_inv (d s f : List Char) (c : Option (List Char))
    (h : fieldOf d s = .ok (f, c)) :
    ∃ pre, (∀ x ∈ pre, x ∈ d) ∧ f ≠ [] ∧ (∀ x ∈ f, x ∉ d) ∧
      ((c = none ∧ s = pre ++ f) ∨
        ∃ dl rest, dl ∈ d ∧ c = some rest ∧ s = pre ++ f ++ dl :: rest) := by
  by_cases hex : ∃ x ∈ s, x ∉ d
  · obtain ⟨pre, g, hpre, hg, hgd, hcase⟩ := fieldOf_decomp d s hex
    rcases hcase with ⟨e, hr⟩ | ⟨dl, rest, hdl, e, hr⟩
    · rw [hr] at h
      cases h
      exact ⟨pre, hpre, hg, hgd, Or.inl ⟨rfl, e⟩⟩
    · rw [hr] at h
      cases h
      exact ⟨pre, hpre, hg, hgd, Or.inr ⟨dl, rest, hdl, rfl, e⟩⟩
  · exfalso
    have hall : ∀ x ∈ s, x ∈ d := by
      intro x hx
      by_contra hxd
      exact hex ⟨x, hx, hxd⟩
    rw [fieldOf_all_delims d s hall] at h
    cases h

/-- The field of a text and the field of the text with one more character at its
end, a character that is no delimiter. -/
theorem fieldOf_append_char (d : List Char) (nl : Char) (hnl : nl ∉ d) (s f : List Char)
    (c : Option (List Char)) (h : fieldOf d s = .ok (f, c)) :
    (∀ rest, c = some rest →
      fieldOf d (s ++ [nl]) = .ok (f, some (rest ++ [nl])) ∧ ∃ p, s = p ++ rest) ∧
    (c = none →
      fieldOf d (s ++ [nl]) = .ok (f ++ [nl], none) ∧ f ≠ [] ∧ ∃ p, s = p ++ f) := by
  obtain ⟨pre, hpre, hf, hfd, hcase⟩ := fieldOf_ok_inv d s f c h
  rcases hcase with ⟨hc, e⟩ | ⟨dl, rest, hdl, hc, e⟩
  · subst hc
    refine ⟨fun rest hr => (by cases hr), fun _ => ⟨?_, hf, pre, e⟩⟩
    rw [e, List.append_assoc, fieldOf_skip_all d pre _ hpre]
    apply fieldOf_last d (f ++ [nl]) (by simp)
    intro x hx
    rcases List.mem_append.mp hx with hx | hx
    · exact hfd x hx
    · rw [List.mem_singleton] at hx
      subst hx
      exact hnl
  · subst hc
    refine ⟨fun r hr => ?_, fun hn => (by cases hn)⟩
    cases hr
    refine ⟨?_, pre ++ f ++ [dl], by rw [e]; simp⟩
    rw [e]
    have e2 : pre ++ f ++ dl :: rest ++ [nl] = pre ++ (f ++ dl :: (rest ++ [nl])) := by simp
    rw [e2, fieldOf_skip_all d pre _ hpre]
    exact fieldOf_token d f dl _ hf hfd hdl

/-- The three calls of `getField` behind a successful `sop2Fields`. -/
theorem sop2Fields_inv (line : Option (List Char)) (dst src1 src0 : List Char)
    (h : sop2Fields line = .ok (dst, src1, src0)) :
    ∃ c1 c2 f3 c3, getField line field_delimiter = .ok (dst, c1) ∧
      getField c1 field_delimiter = .ok (src1, c2) ∧
      getField c2 field_delimiter = .ok (f3, c3) ∧ src0 = trimNewline f3 := by
  unfold sop2Fields at h
  cases e1 : getField line field_delimiter with
  | error f => simp [e1, bind, Except.bind] at h
  | ok p1 =>
    obtain ⟨a, c1⟩ := p1
    cases e2 : getField c1 field_delimiter with
    | error f => simp [e1, e2, bind, Except.bind] at h
    | ok p2 =>
      obtain ⟨b, c2⟩ := p2
      cases e3 : getField c2 field_delimiter with
      | error f => simp [e1, e2, e3, bind, Except.bind] at h
      | ok p3 =>
        obtain ⟨f3, c3⟩ := p3
        simp only [e1, e2, e3, bind, Except.bind, pure, Except.pure, Except.ok.injEq,
          Prod.mk.injEq] at h
        obtain ⟨rfl, rfl, rfl⟩ := h
        exact ⟨c1, c2, f3, c3, rfl, e2, e3, rfl⟩

theorem trimNewline_of_getLast? (s : List Char) (h : s.getLast? ≠ some '\n') :
    trimNewline s = s := by
  unfold trimNewline
  rw [if_neg h]

/-- One newline after an operand text that does not end in a newline leaves the
three fields as they are. -/
theorem sop2Fields_append_newline (t dst src1 src0 : List Char)
    (hf : sop2Fields (some t) = .ok (dst, src1, src0))
    (hlast : t.getLast? ≠ some '\n') :
    sop2Fields (some (t ++ ['\n'])) = .ok (dst, src1, src0) := by
  obtain ⟨c1, c2, f3, c3, e1, e2, e3, rfl⟩ := sop2Fields_inv (some t) dst src1 src0 hf
  have hnl : '\n' ∉ field_delimiter := by decide
  cases c1 with
  | none => rw [getField_none] at e2; cases e2
  | some r1 =>
    cases c2 with
    | none => rw [getField_none] at e3; cases e3
    | some r2 =>
      rw [getField_some] at e1 e2 e3
      obtain ⟨a1, p1, hp1⟩ := (fieldOf_append_char _ _ hnl t dst _ e1).1 r1 rfl
      obtain ⟨a2, p2, hp2⟩ := (fieldOf_append_char _ _ hnl r1 src1 _ e2).1 r2 rfl
      cases c3 with
      | some r3 =>
        obtain ⟨a3, -⟩ := (fieldOf_append_char _ _ hnl r2 f3 _ e3).1 r3 rfl
        simp only [sop2Fields, getField_some, a1, a2, a3, bind, Except.bind, pure,
          Except.pure]
      | none =>
        obtain ⟨a3, hne, p3, hp3⟩ := (fieldOf_append_char _ _ hnl r2 f3 _ e3).2 rfl
        have hl : f3.getLast? = t.getLast? := by
          rw [hp1, hp2, hp3, List.getLast?_append_of_ne_nil _ (by simp [hne]),
            List.getLast?_append_of_ne_nil _ (by simp [hne]),
            List.getLast?_append_of_ne_nil _ hne]
        have ht : trimNewline f3 = f3 := trimNewline_of_getLast? f3 (by rw [hl]; exact hlast)
        simp only [sop2Fields, getField_some, a1, a2, a3, bind, Except.bind, pure,
          Except.pure, trimNewline_newline, ht]

/-- C20, as stated, fails: one newline only is cut off; with two newlines after the
operand text the third field keeps one, and the encoding that succeeds without
them fails. -/
theorem C20_counterexample :
    parseSOP2 sampleTables sampleAdd (some " s5, s3, 42".toList) =
      .ok [.word 0x800503aa] ∧
    sop2Fields (some " s5, s3, 42\n\n".toList) =
      .ok ("s5".toList, "s3".toList, "42\n".toList) ∧
    parseSOP2 sampleTables sampleAdd (some " s5, s3, 42\n\n".toList) =
      .error (.error "parsing operand (literal value)") :=
  ⟨rfl, rfl, rfl⟩

/-- C20 (amended): one trailing newline on the final operand field does not affect
the result: for every SOP2 operand text with three non-empty fields that does
not itself end in a newline, the text followed by one newline gives the same
three fields, and so the same packed word, literal and error outcome, as the
text without it; the encoder cuts one final newline off the third field, and
the first two fields are never trimmed. -/
theorem C20_single_trailing_newline (t dst src1 src0 : List Char)
    (hf : sop2Fields (some t) = .ok (dst, src1, src0))
    (hlast : t.getLast? ≠ some '\n') :
    sop2Fields (some (t ++ ['\n'])) = .ok (dst, src1, src0) ∧
    (∀ (T : Tables) (instr : isa_instr),
      parseSOP2 T instr (some (t ++ ['\n'])) = parseSOP2 T instr (some t)) ∧
    (∀ f1 f2 f3 : List Char, Plain f1 → Plain f2 → Plain f3 →
      sop2Fields (some (f1 ++ ',' :: ' ' :: (f2 ++ ',' :: ' ' :: f3))) =
        .ok (f1, f2, trimNewline f3) ∧
      sop2Fields (some (f1 ++ ',' :: ' ' :: (f2 ++ ',' :: ' ' :: (f3 ++ ['\n'])))) =
        .ok (f1, f2, f3)) := by
  have h := sop2Fields_append_newline t dst src1 src0 hf hlast
  refine ⟨h, fun T instr => ?_, fun f1 f2 f3 h1 h2 h3 => ⟨sop2Fields_three f1 f2 f3 h1 h2 h3, ?_⟩⟩
  · rw [parseSOP2_of_fields T instr _ _ _ _ h, parseSOP2_of_fields T instr _ _ _ _ hf]
  · have h3n : Plain (f3 ++ ['\n']) := by
      apply plain_append f3 _ h3
      intro x hx
      rw [List.mem_singleton] at hx
      subst hx
      decide
    rw [sop2Fields_three f1 f2 (f3 ++ ['\n']) h1 h2 h3n, trimNewline_newline]

/-- C20 (amended), at the operand text ` s5, s3, 42` of the sample tables, and at
the text `s5\n, s3, 42`, whose first field keeps its newline. -/
theorem C20_single_trailing_newline_witness :
    sop2Fields (some " s5, s3, 42".toList) =
      .ok ("s5".toList, "s3".toList, "42".toList) ∧
    sop2Fields (some " s5, s3, 42\n".toList) =
      .ok ("s5".toList, "s3".toList, "42".toList) ∧
    parseSOP2 sampleTables sampleAdd (some " s5, s3, 42\n".toList) =
      parseSOP2 sampleTables sampleAdd (some " s5, s3, 42".toList) ∧
    sop2Fields (some "s5\n, s3, 42\n".toList) =
      .ok ("s5\n".toList, "s3".toList, "42".toList) :=
  ⟨rfl,
    (C20_single_trailing_newline " s5, s3, 42".toList "s5".toList "s3".toList "42".toList
      rfl (by decide)).1,
    (C20_single_trailing_newline " s5, s3, 42".toList "s5".toList "s3".toList "42".toList
      rfl (by decide)).2.1 sampleTables sampleAdd,
    ((C20_single_trailing_newline " s5, s3, 42".toList "s5".toList "s3".toList "42".toList
      rfl (by decide)).2.2 "s5\n".toList "s3".toList "42".toList (by decide) (by decide)
      (by decide)).2⟩

end Gcnasm
